import Mathlib

/-!
ProjetoMeta: the webhook backend (`backend/index.js`).

A shallow embedding of the subscription manager, the dispatch engine with its
retry loop, the log readers and the start-up sequence of `backend/index.js`,
followed by the properties proved about them.

Conventions of the embedding:

* `db` is the lowdb handle: `file` is the JSON document on disk and `data` the
  in-memory document; `db.read()` copies `file` into `data` and `db.write()`
  copies `data` into `file`.
* Everything a handler obtains from outside (generated ids, clock readings,
  what the network answers) is an explicit argument.
* Everything a handler does to the outside (HTTP POSTs, back-off waits, writes
  of the document, socket emissions) is recorded, in order, in a list of
  `Effect`s.
-/

namespace ProjetoMeta

/-! ## Data model -/

/-- A JSON response body, as far as the backend looks at it: the string-valued
fields of the top-level object. `r.data?.challenge` is the lookup of
`"challenge"`; a body that is not an object has no fields. -/
abbrev Body := List (String × String)

/-- Request headers as name/value pairs. -/
abbrev Headers := List (String × String)

/-- The event payload built at `index.js:110`. -/
structure Payload where
  message : String
  timestamp : String
deriving DecidableEq, Repr

/-- The two JSON bodies the backend ever POSTs: `{ challenge }` for the
handshake (`index.js:81`) and the event payload (`index.js:116`). -/
inductive RequestBody where
  | challenge (challenge : String)
  | event (payload : Payload)
deriving DecidableEq, Repr

/-- The value returned by `postWithRetry`: `{ success: true, status, data }` or
`{ success: false, error }`. -/
inductive Result where
  | success (status : Nat) (data : Body)
  | failure (error : String)
deriving DecidableEq, Repr

/-- The `success` field of a result. -/
def Result.isSuccess : Result → Bool
  | .success _ _ => true
  | .failure _ => false

/-- A subscriber record (`index.js:76`). `status` is the JSON string, `"pending"`
or `"verified"` when written by this program. -/
structure Subscriber where
  id : String
  url : String
  status : String
  challenge : String
  createdAt : String
deriving DecidableEq, Repr

/-- A delivery log record (`index.js:117`). -/
structure Log where
  id : String
  subscriberId : String
  url : String
  payload : Payload
  result : Result
  time : String
deriving DecidableEq, Repr

/-- The JSON document `{ subscribers: [], logs: [] }`. -/
structure Store where
  subscribers : List Subscriber
  logs : List Log
deriving DecidableEq, Repr

/-- The lowdb handle `db`: the document on disk and the document in memory. -/
structure Db where
  file : Store
  data : Store
deriving DecidableEq, Repr

/-- `await db.read()`: the in-memory document becomes the one on disk. -/
def Db.read (db : Db) : Db := { db with data := db.file }

/-- `await db.write()`: the document on disk becomes the in-memory one. -/
def Db.write (db : Db) : Db := { db with file := db.data }

/-- What the program does to the outside world, in order. -/
inductive Effect where
  | post (url : String) (body : RequestBody) (headers : Headers)
  | wait (ms : Nat)
  | write (doc : Store)
  | emit (log : Log)
deriving DecidableEq, Repr

/-! ## The HTTP client -/

/-- What happens to one POST on the wire: no response at all (timeout,
connection refused, DNS failure, ...) with the error's message, or a response
with a status code and a body. -/
inductive Outcome where
  | transportError (message : String)
  | response (status : Nat) (data : Body)
deriving DecidableEq, Repr

/-- The object `axios.post` resolves with. -/
structure AxiosResponse where
  status : Nat
  data : Body
deriving DecidableEq, Repr

/-- The error `axios.post` rejects with; only `message` is read (`index.js:65`,
`index.js:87`). -/
structure AxiosError where
  message : String
deriving DecidableEq, Repr

/-- The `validateStatus` of axios. Neither call site (`index.js:57`,
`index.js:81`) passes one in its config, so the library default applies:
`status >= 200 && status < 300`. -/
def validateStatus (status : Nat) : Bool :=
  decide (200 ≤ status) && decide (status < 300)

/-- `await axios.post(url, body, config)` with the default `validateStatus`:
the promise resolves with the response when the status passes
`validateStatus`; it rejects when there is no response, and also when the
response's status does not pass (`Request failed with status code N`). -/
def axiosPost (o : Outcome) : Except AxiosError AxiosResponse :=
  match o with
  | .transportError message => .error { message := message }
  | .response status data =>
    if validateStatus status then .ok { status := status, data := data }
    else .error { message := "Request failed with status code " ++ toString status }

/-! ## `postWithRetry` -/

/-- What one call of `postWithRetry` produces: the returned object and the
effects (POSTs and waits) in order. -/
structure Delivery where
  result : Result
  effects : List Effect
deriving DecidableEq, Repr

/-- `lastErr?.message || "unknown"` (`index.js:65`): a missing error and an
empty message both give `"unknown"`. -/
def errorMessage (lastErr : Option AxiosError) : String :=
  match lastErr with
  | none => "unknown"
  | some err => if err.message = "" then "unknown" else err.message

/-- The `while (attempt < maxAttempts)` loop of `postWithRetry`
(`index.js:55-65`), with the loop variables `attempt` and `lastErr` and the
effects so far as explicit state. `answers k` is what the wire does to the
POST issued after `k` earlier ones of this call. `fuel` bounds the number of
iterations; running out of it is `none`. -/
def postWithRetryLoop (answers : Nat → Outcome) (url : String) (payload : RequestBody)
    (headers : Headers) (maxAttempts : Nat) :
    Nat → Nat → Option AxiosError → List Effect → Option Delivery
  | fuel, attempt, lastErr, effects =>
    if attempt < maxAttempts then
      match fuel with
      | 0 => none
      | fuel + 1 =>
        match axiosPost (answers attempt) with
        | .ok res =>
          some { result := .success res.status res.data,
                 effects := effects ++ [.post url payload headers] }
        | .error err =>
          postWithRetryLoop answers url payload headers maxAttempts fuel (attempt + 1) (some err)
            (effects ++ [.post url payload headers, .wait (500 * (attempt + 1))])
    else
      some { result := .failure (errorMessage lastErr), effects := effects }

/-- `postWithRetry(url, payload, headers, maxAttempts)` (`index.js:52-66`):
the loop started at `attempt = 0`, `lastErr = null`, with `maxAttempts`
iterations of fuel, which the loop never exhausts
(`postWithRetryLoop_enough_fuel`). -/
def postWithRetry (answers : Nat → Outcome) (url : String) (payload : RequestBody)
    (headers : Headers) (maxAttempts : Nat) : Delivery :=
  match postWithRetryLoop answers url payload headers maxAttempts maxAttempts 0 none [] with
  | some d => d
  | none => { result := .failure "unknown", effects := [] }

/-- The POSTs among some effects. -/
def posts (effects : List Effect) : List Effect :=
  effects.filter fun e => match e with
    | .post _ _ _ => true
    | _ => false

/-- The back-off waits among some effects, in milliseconds. -/
def waits (effects : List Effect) : List Nat :=
  effects.filterMap fun e => match e with
    | .wait ms => some ms
    | _ => none

/-! ## Configuration and signing -/

/-- The process configuration (`index.js:15-18`) together with the one library
primitive the signer needs: `hmacSha256Hex key msg` is
`crypto.createHmac("sha256", key).update(msg).digest("hex")`. -/
structure Config where
  WEBHOOK_SECRET : String
  SOCKET_SECRET : String
  hmacSha256Hex : String → String → String

/-- How `JSON.stringify` writes one character of a string. -/
def escapeChar (c : Char) : List Char :=
  if c = '"' then ['\\', '"']
  else if c = '\\' then ['\\', '\\']
  else if c = '\n' then ['\\', 'n']
  else if c = '\r' then ['\\', 'r']
  else if c = '\t' then ['\\', 't']
  else if c.toNat = 8 then ['\\', 'b']
  else if c.toNat = 12 then ['\\', 'f']
  else if c.toNat < 32 then
    ['\\', 'u', '0', '0', Nat.digitChar (c.toNat / 16), Nat.digitChar (c.toNat % 16)]
  else [c]

/-- `JSON.stringify` of a string: quoted, with the escapes of `escapeChar`. -/
def quoteString (s : String) : String :=
  String.mk (['"'] ++ s.data.flatMap escapeChar ++ ['"'])

/-- `JSON.stringify(payload)` for the object literal of `index.js:110`: keys in
the order they were written. -/
def jsonStringify (payload : Payload) : String :=
  "\x7b\"message\":" ++ quoteString payload.message ++ ",\"timestamp\":"
    ++ quoteString payload.timestamp ++ "\x7d"

/-- `signPayload(payload)` (`index.js:46-50`). -/
def signPayload (cfg : Config) (payload : Payload) : String :=
  cfg.hmacSha256Hex cfg.WEBHOOK_SECRET (jsonStringify payload)

/-! ## HTTP handlers -/

/-- What a handler sends back. -/
inductive Response where
  | error (status : Nat) (message : String)
  | subscriber (subscriber : Subscriber)
  | subscribers (subscribers : List Subscriber)
  | success
  | sent (results : List (String × Result))
  | logs (logs : List Log)
deriving DecidableEq, Repr

/-- A handler run to completion: what it answered, the lowdb handle afterwards
and what it did to the outside, in order. -/
structure Handled where
  response : Response
  db : Db
  effects : List Effect
deriving DecidableEq, Repr

/-- `url.endsWith("/")`. -/
def endsWithSlash (url : String) : Bool :=
  url.data.getLast? == some '/'

/-- The handshake address of `index.js:80`. -/
def verifyUrl (url : String) : String :=
  if endsWithSlash url then url ++ "verify" else url ++ "/verify"

/-- `s.slice(0, 16)`. -/
def slice16 (s : String) : String :=
  String.mk (s.data.take 16)

/-- What `POST /subscribe` takes from outside when it registers a new url: the
two `generateId()` results, the clock reading, and what the wire does to the
handshake POST. -/
structure SubscribeEnv where
  id : String
  challengeId : String
  now : String
  handshake : Outcome
deriving DecidableEq, Repr

/-- `subscriber.status = "verified"` (`index.js:83`). The object assigned to is
the one `push`ed at `index.js:77`, which sits at index `idx` of the in-memory
list; the assignment is therefore visible in `db.data`. -/
def setVerified (subscribers : List Subscriber) (idx : Nat) : List Subscriber :=
  subscribers.modify (fun s => { s with status := "verified" }) idx

/-- `POST /subscribe` with body `{ url }` (`index.js:68-91`). A missing url is
the empty string: `!url` holds for both. -/
def subscribe (db : Db) (url : String) (env : SubscribeEnv) : Handled :=
  if url = "" then
    { response := .error 400 "url is required", db := db, effects := [] }
  else
    let db := db.read
    match db.data.subscribers.find? (fun s => s.url == url) with
    | some found => { response := .subscriber found, db := db, effects := [] }
    | none =>
      let challenge := slice16 env.challengeId
      let subscriber : Subscriber :=
        { id := env.id, url := url, status := "pending", challenge := challenge,
          createdAt := env.now }
      let idx := db.data.subscribers.length
      let db : Db :=
        { db with data := { db.data with subscribers := db.data.subscribers ++ [subscriber] } }
      let db := db.write
      let effects := [Effect.write db.file, Effect.post (verifyUrl url) (.challenge challenge) []]
      match axiosPost env.handshake with
      | .ok r =>
        if r.data.lookup "challenge" = some challenge then
          let subscriber := { subscriber with status := "verified" }
          let db : Db :=
            { db with data := { db.data with subscribers := setVerified db.data.subscribers idx } }
          let db := db.write
          { response := .subscriber subscriber, db := db.read,
            effects := effects ++ [.write db.file] }
        else
          { response := .subscriber subscriber, db := db.read, effects := effects }
      | .error _ =>
        { response := .subscriber subscriber, db := db.read, effects := effects }

/-- `GET /subscribers` (`index.js:93-96`). -/
def getSubscribers (db : Db) : Handled :=
  let db := db.read
  { response := .subscribers db.data.subscribers, db := db, effects := [] }

/-- `Array.prototype.findIndex`, with `none` for `-1`. -/
def findIndex {α : Type} (p : α → Bool) : List α → Option Nat
  | [] => none
  | a :: l => if p a then some 0 else (findIndex p l).map (· + 1)

/-- `DELETE /subscribers/:id` (`index.js:98-106`); `splice(idx, 1)` is
`eraseIdx`. -/
def deleteSubscriber (db : Db) (id : String) : Handled :=
  let db := db.read
  match findIndex (fun s : Subscriber => s.id == id) db.data.subscribers with
  | none => { response := .error 404 "not found", db := db, effects := [] }
  | some idx =>
    let db : Db :=
      { db with data := { db.data with subscribers := db.data.subscribers.eraseIdx idx } }
    let db := db.write
    { response := .success, db := db, effects := [.write db.file] }

/-- What `POST /event` takes from outside: the clock reading for the payload
and, for the `i`-th delivery of the call, the answers of the wire to its
successive POSTs, the generated log id and the clock reading for the log. -/
structure EventEnv where
  now : String
  answers : Nat → Nat → Outcome
  logId : Nat → String
  logTime : Nat → String

/-- The state of the `for` loop of `POST /event`. -/
structure EventState where
  db : Db
  results : List (String × Result)
  effects : List Effect
deriving DecidableEq, Repr

/-- The headers of a delivery (`index.js:115`). -/
def deliveryHeaders (cfg : Config) (payload : Payload) : Headers :=
  [("Content-Type", "application/json"), ("x-webhook-signature", signPayload cfg payload)]

/-- The log record written for the `i`-th delivery (`index.js:117`). -/
def deliveryLog (env : EventEnv) (payload : Payload) (i : Nat) (s : Subscriber) (r : Result) :
    Log :=
  { id := env.logId i, subscriberId := s.id, url := s.url, payload := payload, result := r,
    time := env.logTime i }

/-- The `for (const s of subscribers)` loop of `POST /event`
(`index.js:113-122`); `i` counts the deliveries made so far. `io` is set
before the server accepts any request, so the `emit` always happens. -/
def eventLoop (cfg : Config) (env : EventEnv) (payload : Payload) :
    List Subscriber → Nat → EventState → EventState
  | [], _, st => st
  | s :: rest, i, st =>
    let headers := deliveryHeaders cfg payload
    let r := postWithRetry (env.answers i) s.url (.event payload) headers 3
    let log := deliveryLog env payload i s r.result
    let db : Db := { st.db with data := { st.db.data with logs := st.db.data.logs ++ [log] } }
    let results := st.results ++ [(s.url, r.result)]
    let db := db.write
    eventLoop cfg env payload rest (i + 1)
      { db := db, results := results,
        effects := st.effects ++ r.effects ++ [.write db.file, .emit log] }

/-- `req.body.message || "hello from backend"`. -/
def messageOrDefault (message : Option String) : String :=
  match message with
  | none => "hello from backend"
  | some m => if m = "" then "hello from backend" else m

/-- `POST /event` with body `{ message? }` (`index.js:108-124`). -/
def event (cfg : Config) (db : Db) (message : Option String) (env : EventEnv) : Handled :=
  let db := db.read
  let payload : Payload := { message := messageOrDefault message, timestamp := env.now }
  let subscribers := db.data.subscribers.filter (fun s => s.status == "verified")
  let st := eventLoop cfg env payload subscribers 0 { db := db, results := [], effects := [] }
  { response := .sent st.results, db := st.db, effects := st.effects }

/-- `GET /logs` (`index.js:126-129`). -/
def getLogs (db : Db) : Handled :=
  let db := db.read
  { response := .logs db.data.logs.reverse, db := db, effects := [] }

/-- The `connection` handler of the live channel (`index.js:148-152`) for a
connection the middleware let through; the response is the array emitted as
`logs`. -/
def connection (db : Db) : Handled :=
  let db := db.read
  { response := .logs (db.data.logs.reverse.take 50), db := db, effects := [] }

/-! ## The API as a transition system -/

/-- One operation of the API with everything it takes from outside. -/
inductive Op where
  | subscribe (url : String) (env : SubscribeEnv)
  | getSubscribers
  | deleteSubscriber (id : String)
  | event (message : Option String) (env : EventEnv)
  | getLogs
  | connection

/-- Running one operation. -/
def step (cfg : Config) (db : Db) : Op → Handled
  | .subscribe url env => subscribe db url env
  | .getSubscribers => getSubscribers db
  | .deleteSubscriber id => deleteSubscriber db id
  | .event message env => event cfg db message env
  | .getLogs => getLogs db
  | .connection => connection db

/-- The documents written by some effects, in order. -/
def writes (effects : List Effect) : List Store :=
  effects.filterMap fun e => match e with
    | .write doc => some doc
    | _ => none

/-- The result of the `i`-th delivery of a `POST /event` call, made to
subscriber `s`: what `postWithRetry` returns at `index.js:116`. -/
def deliveryResult (cfg : Config) (env : EventEnv) (payload : Payload) (i : Nat)
    (s : Subscriber) : Result :=
  (postWithRetry (env.answers i) s.url (.event payload) (deliveryHeaders cfg payload) 3).result

/-- The subscribers a `POST /event` call delivers to (`index.js:111`). -/
def verifiedSubscribers (doc : Store) : List Subscriber :=
  doc.subscribers.filter (fun s => s.status == "verified")

/-! ## Start-up -/

/-- What `await db.read()` does at start-up (`index.js:37`): it throws (I/O
error, or a file that is not JSON), it finds no document (lowdb keeps the
default data), or it loads the document on disk. -/
inductive ReadOutcome where
  | throws (message : String)
  | absent
  | document (doc : Store)
deriving DecidableEq, Repr

/-- What the file system does during start-up: whether the data directory
exists, the error of `fs.mkdirSync` if it is called and fails, the outcome of
the initial read, and the error of the initial `db.write()` if it fails. -/
structure StartupEnv where
  dirExists : Bool
  mkdirError : Option String
  read : ReadOutcome
  writeError : Option String
deriving DecidableEq, Repr

/-- The default data `{ subscribers: [], logs: [] }`. -/
def emptyStore : Store := { subscribers := [], logs := [] }

/-- `initDb()` (`index.js:27-44`): the lowdb handle when the promise resolves,
the thrown error's message when it rejects. The `catch` of `index.js:38`
replaces a failed read by the default data; `db.data ||= ...` changes nothing,
`db.data` being an object by then. -/
def initDb (env : StartupEnv) : Except String Db :=
  match env.dirExists, env.mkdirError with
  | false, some message => .error message
  | _, _ =>
    let data : Store :=
      match env.read with
      | .throws _ => emptyStore
      | .absent => emptyStore
      | .document doc => doc
    match env.writeError with
    | some message => .error message
    | none => .ok { file := data, data := data }

/-- The process after start-up: listening with a lowdb handle, or exited. -/
inductive Process where
  | listening (db : Db)
  | exited (code : Nat)
deriving DecidableEq, Repr

/-- `initDb().then(...).catch(...)` (`index.js:138-156`): `server.listen` when
`initDb` resolves, `process.exit(1)` when it rejects. -/
def main (env : StartupEnv) : Process :=
  match initDb env with
  | .ok db => .listening db
  | .error _ => .exited 1

/-! ## Runs -/

/-- The documents on disk along a run of operations, in order: the one before
the first operation, then for each operation every document it writes and the
one it leaves. -/
def history (cfg : Config) : Db → List Op → List Store
  | db, [] => [db.file]
  | db, op :: ops =>
    db.file :: (writes (step cfg db op).effects ++ history cfg (step cfg db op).db ops)

/-- The id an operation takes from `generateId()` at `index.js:74`: only a
`POST /subscribe` with a non-empty url that is not registered gets that far. -/
def generatedId (db : Db) : Op → Option String
  | .subscribe url env =>
    if url = "" then none
    else
      match db.file.subscribers.find? (fun s => s.url == url) with
      | some _ => none
      | none => some env.id
  | _ => none

/-- Generated ids are fresh along a run: every id an operation generates is
different from the ids in `seen`, which holds the ids of the initial store and
those generated earlier in the run. -/
def FreshIds (cfg : Config) : List String → Db → List Op → Prop
  | _, _, [] => True
  | seen, db, op :: ops =>
    (∀ id, generatedId db op = some id → id ∉ seen) ∧
      FreshIds cfg ((generatedId db op).toList ++ seen) (step cfg db op).db ops

/-- The ids of a store are pairwise distinct and all in `seen`. -/
def KnownIds (seen : List String) (σ : Store) : Prop :=
  (σ.subscribers.map (fun s => s.id)).Nodup ∧ ∀ s ∈ σ.subscribers, s.id ∈ seen

/-- Every subscriber of `τ` whose id is in `seen` was already in `σ`, and is
verified in `τ` if it was in `σ`. -/
def Survives (seen : List String) (σ τ : Store) : Prop :=
  ∀ t ∈ τ.subscribers, t.id ∈ seen →
    ∃ s ∈ σ.subscribers, s.id = t.id ∧ (s.status = "verified" → t.status = "verified")

/-- No id that is verified in `σ` is present and not verified in `τ`. -/
def NeverReverts (σ τ : Store) : Prop :=
  ∀ s ∈ σ.subscribers, s.status = "verified" →
    ∀ t ∈ τ.subscribers, t.id = s.id → t.status = "verified"

/-- What one operation does to the subscribers, as far as verification goes:
`σ` is the store before, `ws` the documents written, `τ` the store after. -/
def StepOk (seen seen' : List String) (σ : Store) (ws : List Store) (τ : Store) : Prop :=
  KnownIds seen' τ ∧ Survives seen σ τ ∧
    (∀ w ∈ ws, Survives seen σ w ∧ KnownIds seen' w ∧ Survives seen' w τ) ∧
    ws.Pairwise NeverReverts

/-- A sample configuration; the digest is a stand-in. -/
def sampleConfig : Config :=
  { WEBHOOK_SECRET := "supersecret", SOCKET_SECRET := "socksecret",
    hmacSha256Hex := fun key msg => key ++ msg }

/-- A sample store: one verified subscriber, no log. -/
def sampleDb : Db :=
  { file := ⟨[⟨"id-0", "http://a.test", "verified", "c0", "t0"⟩], []⟩,
    data := ⟨[], []⟩ }

/-- A sample run: register `http://b.test` with a handshake that succeeds,
trigger an event that reaches both endpoints at the first attempt, delete the
first subscriber, read the log. -/
def sampleRun : List Op :=
  [.subscribe "http://b.test"
      ⟨"id-1", "0123456789abcdef7890", "t1",
        .response 200 [("challenge", "0123456789abcdef")]⟩,
   .event (some "hi") ⟨"t2", fun _ _ => .response 200 [], fun _ => "log", fun _ => "t3"⟩,
   .deleteSubscriber "id-0",
   .getLogs]

/-- The effects of `n` failed attempts in a row, the first of them being
attempt number `start + 1`: each is a POST followed by the wait of
`index.js:62`, `500 * attempt` milliseconds with `attempt` already
incremented. -/
def failedAttempts (url : String) (payload : RequestBody) (headers : Headers) :
    Nat → Nat → List Effect
  | _, 0 => []
  | start, n + 1 =>
    .post url payload headers :: .wait (500 * (start + 1)) ::
      failedAttempts url payload headers (start + 1) n

/-! ## The live channel -/

/-- What a socket presents when it connects: `socket.handshake.auth?.token` and
`socket.handshake.query?.token`, each possibly missing. -/
structure Handshake where
  authToken : Option String
  queryToken : Option String
deriving DecidableEq, Repr

/-- `a || b` on values that are strings or missing: `a` when it is a non-empty
string, `b` otherwise. -/
def orElse (a b : Option String) : Option String :=
  match a with
  | none => b
  | some s => if s = "" then b else some s

/-- The middleware of `index.js:143-147`: `none` is `next()`, `some message` is
`next(new Error(message))`. -/
def authorize (cfg : Config) (hs : Handshake) : Option String :=
  let token := orElse hs.authToken hs.queryToken
  if token = some cfg.SOCKET_SECRET then none else some "unauthorized"

/-- A connection attempt run to completion: refused by the middleware with an
error, in which case the `connection` handler never runs, or let through to
the handler. -/
inductive SocketResult where
  | rejected (error : String)
  | connected (handled : Handled)
deriving DecidableEq, Repr

/-- A socket connecting to the live channel (`index.js:142-152`). -/
def connect (cfg : Config) (db : Db) (hs : Handshake) : SocketResult :=
  match authorize cfg hs with
  | some error => .rejected error
  | none => .connected (connection db)

/-- The `logs` snapshots emitted to the socket. -/
def snapshots : SocketResult → List (List Log)
  | .rejected _ => []
  | .connected handled =>
    match handled.response with
    | .logs logs => [logs]
    | _ => []

/-! ## Reading a serialization back -/

/-- The value of a hexadecimal digit as written by `Nat.digitChar`. -/
def hexValue (c : Char) : Nat :=
  if c.toNat < 58 then c.toNat - 48 else c.toNat - 87

/-- Reading one character of a JSON string back: the inverse of `escapeChar`
on the front of a list of characters. -/
def unescapeHead : List Char → Option (Char × List Char)
  | [] => none
  | c :: rest =>
    if c = '\\' then
      match rest with
      | [] => none
      | x :: rest =>
        if x = '"' then some ('"', rest)
        else if x = '\\' then some ('\\', rest)
        else if x = 'n' then some ('\n', rest)
        else if x = 'r' then some ('\r', rest)
        else if x = 't' then some ('\t', rest)
        else if x = 'b' then some (Char.ofNat 8, rest)
        else if x = 'f' then some (Char.ofNat 12, rest)
        else
          match rest with
          | _ :: _ :: h₁ :: h₂ :: rest => some (Char.ofNat (16 * hexValue h₁ + hexValue h₂), rest)
          | _ => none
    else some (c, rest)

end ProjetoMeta

/-! ## Properties -/

namespace ProjetoMeta

/-! ### The retry loop -/

/-- With at least `maxAttempts - attempt` iterations of fuel the loop returns. -/
theorem postWithRetryLoop_returns (answers : Nat → Outcome) (url : String) (payload : RequestBody)
    (headers : Headers) (maxAttempts : Nat) :
    ∀ (fuel attempt : Nat) (lastErr : Option AxiosError) (effects : List Effect),
      maxAttempts ≤ attempt + fuel →
      (postWithRetryLoop answers url payload headers maxAttempts fuel attempt lastErr
        effects).isSome = true := by
  intro fuel
  induction fuel with
  | zero =>
    intro attempt lastErr effects h
    have hn : ¬ attempt < maxAttempts := by omega
    simp [postWithRetryLoop, hn]
  | succ fuel ih =>
    intro attempt lastErr effects h
    by_cases hlt : attempt < maxAttempts
    · cases hres : axiosPost (answers attempt) with
      | ok res => simp [postWithRetryLoop, hlt, hres]
      | error err =>
        have hd := ih (attempt + 1) (some err)
          (effects ++ [.post url payload headers, .wait (500 * (attempt + 1))]) (by omega)
        simpa [postWithRetryLoop, hlt, hres] using hd
    · simp [postWithRetryLoop, hlt]

/-- The fuel `postWithRetry` gives its loop is enough: the loop returns, and
`postWithRetry` is what it returns. -/
theorem postWithRetryLoop_enough_fuel (answers : Nat → Outcome) (url : String)
    (payload : RequestBody) (headers : Headers) (maxAttempts : Nat) :
    postWithRetryLoop answers url payload headers maxAttempts maxAttempts 0 none []
      = some (postWithRetry answers url payload headers maxAttempts) := by
  have h := postWithRetryLoop_returns answers url payload headers maxAttempts
    maxAttempts 0 none [] (by omega)
  obtain ⟨d, hd⟩ := Option.isSome_iff_exists.mp h
  simp [postWithRetry, hd]

/-- C1, counterexample: the endpoint answers every POST with a response of
status 500. The claim promises one attempt and `{success: true, status: 500}`;
`axios.post` rejects such a response, so `postWithRetry` POSTs three times,
waits after each, and returns `{success: false}`. -/
theorem postWithRetry_response_500_is_retried :
    (fun _ : Nat => Outcome.response 500 [("received", "false")]) 0
        = Outcome.response 500 [("received", "false")] ∧
      postWithRetry (fun _ => Outcome.response 500 [("received", "false")]) "http://a.test"
          (.event { message := "hi", timestamp := "2024-01-01T00:00:00.000Z" }) [] 3
        = { result := .failure "Request failed with status code 500",
            effects :=
              [.post "http://a.test"
                  (.event { message := "hi", timestamp := "2024-01-01T00:00:00.000Z" }) [],
               .wait 500,
               .post "http://a.test"
                  (.event { message := "hi", timestamp := "2024-01-01T00:00:00.000Z" }) [],
               .wait 1000,
               .post "http://a.test"
                  (.event { message := "hi", timestamp := "2024-01-01T00:00:00.000Z" }) [],
               .wait 1500] } := by
  decide

/-- C1, as amended: for every url, payload, headers, every `maxAttempts ≥ 1` and
every status code from 200 to 299, if the endpoint answers the first POST with
a response carrying that status, `postWithRetry` makes exactly one attempt (one
POST, no wait) and returns `{success: true, status, data}` with that
response's status and body. -/
theorem postWithRetry_first_response_2xx (answers : Nat → Outcome) (url : String)
    (payload : RequestBody) (headers : Headers) (maxAttempts status : Nat) (data : Body)
    (hmax : 0 < maxAttempts) (h0 : answers 0 = .response status data)
    (h2xx : 200 ≤ status ∧ status < 300) :
    postWithRetry answers url payload headers maxAttempts
      = { result := .success status data, effects := [.post url payload headers] } := by
  have hv : validateStatus status = true := by simp [validateStatus, h2xx.1, h2xx.2]
  obtain ⟨n, rfl⟩ : ∃ n, maxAttempts = n + 1 := ⟨maxAttempts - 1, by omega⟩
  simp [postWithRetry, postWithRetryLoop, h0, axiosPost, hv]

/-- C1, witness: a 204 answer to the first POST of a call with three attempts. -/
theorem postWithRetry_first_response_2xx_witness :
    postWithRetry (fun _ => Outcome.response 204 []) "http://b.test" (.challenge "abc")
        [("Content-Type", "application/json")] 3
      = { result := .success 204 [],
          effects := [.post "http://b.test" (.challenge "abc")
            [("Content-Type", "application/json")]] } :=
  postWithRetry_first_response_2xx (fun _ => Outcome.response 204 []) "http://b.test"
    (.challenge "abc") [("Content-Type", "application/json")] 3 204 [] (by decide) rfl
    (by decide)

/-- C2, counterexample: (a) no attempt fails at transport level and the first
attempt gets a response, of status 503: the claim promises one attempt and
`success = true`, the code makes three and returns `success = false`; (b) an
endpoint that always fails with an empty error message: the code reports the
error `"unknown"`, not the message of the last failure. -/
theorem postWithRetry_three_attempts_counterexample :
    (fun _ : Nat => Outcome.response 503 []) 0 = Outcome.response 503 [] ∧
      (posts (postWithRetry (fun _ => Outcome.response 503 []) "http://a.test"
        (.challenge "c") [] 3).effects).length = 3 ∧
      (postWithRetry (fun _ => Outcome.response 503 []) "http://a.test"
        (.challenge "c") [] 3).result.isSuccess = false ∧
      (postWithRetry (fun _ => Outcome.transportError "") "http://a.test"
        (.challenge "c") [] 3).result = .failure "unknown" := by
  decide

/-- C2, as amended: for `postWithRetry` called with `maxAttempts = 3` and every
sequence of endpoint outcomes, if the first `k` attempts fail at transport
level and, when `k < 3`, attempt `k + 1` gets a response with a status from 200
to 299, then exactly `min (k + 1) 3` POSTs are made, all to the given url with
the given payload and headers; the result is `{success: true, status, data}`
of that response when `k < 3`, and when `k ≥ 3` it is `{success: false, error}`
where `error` is the message of the third failure, or `"unknown"` if that
message is empty. -/
theorem postWithRetry_three_attempts (answers : Nat → Outcome) (url : String)
    (payload : RequestBody) (headers : Headers) (k status : Nat) (data : Body)
    (hfail : ∀ i, i < k → ∃ m, answers i = .transportError m)
    (hresp : k < 3 → answers k = .response status data ∧ 200 ≤ status ∧ status < 300) :
    posts (postWithRetry answers url payload headers 3).effects
        = List.replicate (min (k + 1) 3) (.post url payload headers) ∧
      (k < 3 → (postWithRetry answers url payload headers 3).result = .success status data) ∧
      (3 ≤ k → ∃ m, answers 2 = .transportError m ∧
        (postWithRetry answers url payload headers 3).result
          = .failure (if m = "" then "unknown" else m)) := by
  rcases k with _ | _ | _ | k
  · obtain ⟨h0, hlo, hhi⟩ := hresp (by omega)
    have hv : validateStatus status = true := by simp [validateStatus, hlo, hhi]
    simp [postWithRetry, postWithRetryLoop, axiosPost, h0, hv, posts]
  · obtain ⟨h1, hlo, hhi⟩ := hresp (by omega)
    obtain ⟨m0, h0⟩ := hfail 0 (by omega)
    have hv : validateStatus status = true := by simp [validateStatus, hlo, hhi]
    simp [postWithRetry, postWithRetryLoop, axiosPost, h0, h1, hv, posts, List.replicate]
  · obtain ⟨h2, hlo, hhi⟩ := hresp (by omega)
    obtain ⟨m0, h0⟩ := hfail 0 (by omega)
    obtain ⟨m1, h1⟩ := hfail 1 (by omega)
    have hv : validateStatus status = true := by simp [validateStatus, hlo, hhi]
    simp [postWithRetry, postWithRetryLoop, axiosPost, h0, h1, h2, hv, posts, List.replicate]
  · obtain ⟨m0, h0⟩ := hfail 0 (by omega)
    obtain ⟨m1, h1⟩ := hfail 1 (by omega)
    obtain ⟨m2, h2⟩ := hfail 2 (by omega)
    have hmin : min (k + 1 + 1 + 1 + 1) 3 = 3 := by omega
    simp [postWithRetry, postWithRetryLoop, axiosPost, h0, h1, h2, posts, List.replicate,
      errorMessage, hmin]

/-- C2, witness: an endpoint that refuses the connection twice and then answers
200 is POSTed to exactly three times and the result is a success. -/
theorem postWithRetry_three_attempts_witness :
    posts (postWithRetry
        (fun i => if i < 2 then Outcome.transportError "connect ECONNREFUSED"
          else Outcome.response 200 [])
        "http://b.test" (.challenge "c") [] 3).effects
        = List.replicate 3 (.post "http://b.test" (.challenge "c") []) ∧
      (postWithRetry
        (fun i => if i < 2 then Outcome.transportError "connect ECONNREFUSED"
          else Outcome.response 200 [])
        "http://b.test" (.challenge "c") [] 3).result = .success 200 [] :=
  have h := postWithRetry_three_attempts
    (fun i => if i < 2 then Outcome.transportError "connect ECONNREFUSED"
      else Outcome.response 200 [])
    "http://b.test" (.challenge "c") [] 2 200 []
    (fun i hi => ⟨"connect ECONNREFUSED", by simp [hi]⟩)
    (fun _ => ⟨by decide, by decide, by decide⟩)
  ⟨h.1, h.2.1 (by decide)⟩

end ProjetoMeta

namespace ProjetoMeta

/-! ### The dispatch loop -/

/-- Every effect of the retry loop is one it started with, a POST of the given
request, or a wait. -/
theorem postWithRetryLoop_effects (answers : Nat → Outcome) (url : String)
    (payload : RequestBody) (headers : Headers) (maxAttempts : Nat) :
    ∀ (fuel attempt : Nat) (lastErr : Option AxiosError) (effects : List Effect) (d : Delivery),
      postWithRetryLoop answers url payload headers maxAttempts fuel attempt lastErr effects
        = some d →
      ∀ e ∈ d.effects, e ∈ effects ∨ e = .post url payload headers ∨ ∃ ms, e = .wait ms := by
  intro fuel
  induction fuel with
  | zero =>
    intro attempt lastErr effects d h e he
    by_cases hlt : attempt < maxAttempts
    · simp [postWithRetryLoop, hlt] at h
    · simp [postWithRetryLoop, hlt] at h
      subst h
      exact Or.inl he
  | succ fuel ih =>
    intro attempt lastErr effects d h e he
    by_cases hlt : attempt < maxAttempts
    · cases hres : axiosPost (answers attempt) with
      | ok res =>
        simp [postWithRetryLoop, hlt, hres] at h
        subst h
        simp at he
        rcases he with he | he
        · exact Or.inl he
        · exact Or.inr (Or.inl he)
      | error err =>
        simp only [postWithRetryLoop, hlt, hres, if_true] at h
        rcases ih _ _ _ d h e he with h1 | h1 | h1
        · simp at h1
          rcases h1 with h1 | h1 | h1
          · exact Or.inl h1
          · exact Or.inr (Or.inl h1)
          · exact Or.inr (Or.inr ⟨_, h1⟩)
        · exact Or.inr (Or.inl h1)
        · exact Or.inr (Or.inr h1)
    · simp [postWithRetryLoop, hlt] at h
      subst h
      exact Or.inl he

/-- Every effect of `postWithRetry` is a POST of the given request or a wait. -/
theorem postWithRetry_effects (answers : Nat → Outcome) (url : String) (payload : RequestBody)
    (headers : Headers) (maxAttempts : Nat) :
    ∀ e ∈ (postWithRetry answers url payload headers maxAttempts).effects,
      e = .post url payload headers ∨ ∃ ms, e = .wait ms := by
  intro e he
  have h := postWithRetryLoop_effects answers url payload headers maxAttempts maxAttempts 0
    none [] _ (postWithRetryLoop_enough_fuel answers url payload headers maxAttempts) e he
  simpa using h

end ProjetoMeta

namespace ProjetoMeta

/-- The lowdb handle after the dispatch loop: disk and memory agree, the
subscribers are untouched, and the log has grown by one record per subscriber
of the loop, in order. -/
theorem eventLoop_db (cfg : Config) (env : EventEnv) (payload : Payload) :
    ∀ (subs : List Subscriber) (i : Nat) (st : EventState), st.db.file = st.db.data →
      (eventLoop cfg env payload subs i st).db.file
          = (eventLoop cfg env payload subs i st).db.data ∧
        (eventLoop cfg env payload subs i st).db.data.subscribers = st.db.data.subscribers ∧
        (eventLoop cfg env payload subs i st).db.data.logs
          = st.db.data.logs ++ subs.mapIdx (fun j s =>
              deliveryLog env payload (i + j) s (deliveryResult cfg env payload (i + j) s)) := by
  intro subs
  induction subs with
  | nil => intro i st h; simp [eventLoop, h]
  | cons s rest ih =>
    intro i st h
    obtain ⟨h1, h2, h3⟩ := ih (i + 1)
      { db := Db.write { st.db with data := { st.db.data with logs := st.db.data.logs ++
          [deliveryLog env payload i s (postWithRetry (env.answers i) s.url (.event payload)
            (deliveryHeaders cfg payload) 3).result] } },
        results := st.results ++ [(s.url, (postWithRetry (env.answers i) s.url (.event payload)
            (deliveryHeaders cfg payload) 3).result)],
        effects := st.effects ++ (postWithRetry (env.answers i) s.url (.event payload)
            (deliveryHeaders cfg payload) 3).effects ++
          [.write (Db.write { st.db with data := { st.db.data with logs := st.db.data.logs ++
            [deliveryLog env payload i s (postWithRetry (env.answers i) s.url (.event payload)
              (deliveryHeaders cfg payload) 3).result] } }).file,
           .emit (deliveryLog env payload i s (postWithRetry (env.answers i) s.url
              (.event payload) (deliveryHeaders cfg payload) 3).result)] } rfl
    refine ⟨by simpa [eventLoop] using h1, by simpa [eventLoop, Db.write] using h2, ?_⟩
    simp only [eventLoop]
    rw [h3]
    simp [Db.write, List.mapIdx_cons, deliveryResult, Nat.add_assoc, Nat.add_comm 1]

/-- The results collected by the dispatch loop: one per subscriber, in order. -/
theorem eventLoop_results (cfg : Config) (env : EventEnv) (payload : Payload) :
    ∀ (subs : List Subscriber) (i : Nat) (st : EventState),
      (eventLoop cfg env payload subs i st).results
        = st.results ++ subs.mapIdx (fun j s =>
            (s.url, deliveryResult cfg env payload (i + j) s)) := by
  intro subs
  induction subs with
  | nil => intro i st; simp [eventLoop]
  | cons s rest ih =>
    intro i st
    simp only [eventLoop]
    rw [ih]
    simp [List.mapIdx_cons, deliveryResult, Nat.add_assoc, Nat.add_comm 1]

/-- Every effect of the dispatch loop is one it started with, a POST of the
payload to one of the loop's subscribers, a wait, a write of a document with
the same subscribers and a longer log, or an emit. -/
theorem eventLoop_effects (cfg : Config) (env : EventEnv) (payload : Payload) :
    ∀ (subs : List Subscriber) (i : Nat) (st : EventState),
      ∀ e ∈ (eventLoop cfg env payload subs i st).effects,
        e ∈ st.effects ∨
        (∃ s ∈ subs, e = .post s.url (.event payload) (deliveryHeaders cfg payload)) ∨
        (∃ ms, e = .wait ms) ∨
        (∃ doc, e = .write doc ∧ doc.subscribers = st.db.data.subscribers ∧
          st.db.data.logs <+: doc.logs) ∨
        (∃ log, e = .emit log) := by
  intro subs
  induction subs with
  | nil => intro i st e he; exact Or.inl (by simpa [eventLoop] using he)
  | cons s rest ih =>
    intro i st e he
    simp only [eventLoop] at he
    rcases ih _ _ e he with h | ⟨t, ht, h⟩ | h | ⟨doc, h, hs, hl⟩ | h
    · simp only [List.mem_append, List.mem_cons, List.mem_singleton, List.not_mem_nil,
        or_false] at h
      rcases h with (h | h) | h | h
      · exact Or.inl h
      · rcases postWithRetry_effects _ _ _ _ _ e h with h | h
        · exact Or.inr (Or.inl ⟨s, List.mem_cons_self _ _, h⟩)
        · exact Or.inr (Or.inr (Or.inl h))
      · refine Or.inr (Or.inr (Or.inr (Or.inl ⟨_, h, ?_, ?_⟩)))
        · simp [Db.write]
        · simp [Db.write]
      · exact Or.inr (Or.inr (Or.inr (Or.inr ⟨_, h⟩)))
    · exact Or.inr (Or.inl ⟨t, List.mem_cons_of_mem _ ht, h⟩)
    · exact Or.inr (Or.inr (Or.inl h))
    · refine Or.inr (Or.inr (Or.inr (Or.inl ⟨doc, h, ?_, ?_⟩)))
      · simpa [Db.write] using hs
      · exact List.IsPrefix.trans (by simp [Db.write]) hl
    · exact Or.inr (Or.inr (Or.inr (Or.inr h)))

end ProjetoMeta

namespace ProjetoMeta

/-! ### `POST /event` -/

/-- C3, counterexample: a store in which a verified and a pending subscriber
share the url `http://a.test`. `POST /event` delivers to the verified one, and
that POST goes to the url of the pending subscriber `s2`. -/
theorem event_posts_to_shared_url :
    (⟨"s2", "http://a.test", "pending", "c2", "t2"⟩ : Subscriber) ∈
        [(⟨"s1", "http://a.test", "verified", "c1", "t1"⟩ : Subscriber),
         ⟨"s2", "http://a.test", "pending", "c2", "t2"⟩] ∧
      Effect.post "http://a.test" (.event ⟨"hi", "t3"⟩)
          [("Content-Type", "application/json"), ("x-webhook-signature", "sig")] ∈
        (event ⟨"supersecret", "socksecret", fun _ _ => "sig"⟩
          ⟨⟨[⟨"s1", "http://a.test", "verified", "c1", "t1"⟩,
             ⟨"s2", "http://a.test", "pending", "c2", "t2"⟩], []⟩,
           ⟨[⟨"s1", "http://a.test", "verified", "c1", "t1"⟩,
             ⟨"s2", "http://a.test", "pending", "c2", "t2"⟩], []⟩⟩
          (some "hi")
          ⟨"t3", fun _ _ => .response 200 [], fun _ => "l1", fun _ => "t4"⟩).effects := by
  decide

/-- C3, as amended: for every store state, every message and every behaviour
of the subscriber endpoints, one `POST /event` call leaves the subscribers as
they are and appends to the log exactly one entry per stored subscriber whose
status is verified, in subscriber-list order, each entry carrying that
subscriber's id and url, the event payload and the final result of
`postWithRetry`; the returned `sent` list has the same length and order with
the same url and result. Every delivery attempt goes to the url of a verified
subscriber; none goes to the url of a pending subscriber when the stored urls
are pairwise distinct. When no subscriber is verified the call returns an empty
list, leaves the store unchanged and has no effect at all. -/
theorem event_one_log_per_verified (cfg : Config) (db : Db) (message : Option String)
    (env : EventEnv) :
    (event cfg db message env).db.file.subscribers = db.file.subscribers ∧
      (event cfg db message env).db.file.logs
        = db.file.logs ++ (verifiedSubscribers db.file).mapIdx (fun j s =>
            { id := env.logId j, subscriberId := s.id, url := s.url,
              payload := { message := messageOrDefault message, timestamp := env.now },
              result := deliveryResult cfg env
                { message := messageOrDefault message, timestamp := env.now } j s,
              time := env.logTime j }) ∧
      (event cfg db message env).db.file.logs.length
        = db.file.logs.length + (verifiedSubscribers db.file).length ∧
      (event cfg db message env).response
        = .sent ((verifiedSubscribers db.file).mapIdx (fun j s =>
            (s.url, deliveryResult cfg env
              { message := messageOrDefault message, timestamp := env.now } j s))) ∧
      (∀ url body headers, Effect.post url body headers ∈ (event cfg db message env).effects →
        ∃ s ∈ db.file.subscribers, s.status = "verified" ∧ s.url = url) ∧
      ((db.file.subscribers.map (fun s => s.url)).Nodup →
        ∀ p ∈ db.file.subscribers, p.status = "pending" → ∀ body headers,
          Effect.post p.url body headers ∉ (event cfg db message env).effects) ∧
      ((∀ s ∈ db.file.subscribers, s.status ≠ "verified") →
        (event cfg db message env).response = .sent [] ∧
        (event cfg db message env).db.file = db.file ∧
        (event cfg db message env).effects = []) := by
  have hdb := eventLoop_db cfg env { message := messageOrDefault message, timestamp := env.now }
    (verifiedSubscribers db.file) 0 { db := db.read, results := [], effects := [] } rfl
  have hres := eventLoop_results cfg env
    { message := messageOrDefault message, timestamp := env.now }
    (verifiedSubscribers db.file) 0 { db := db.read, results := [], effects := [] }
  have heff := eventLoop_effects cfg env
    { message := messageOrDefault message, timestamp := env.now }
    (verifiedSubscribers db.file) 0 { db := db.read, results := [], effects := [] }
  obtain ⟨hfd, hsubs, hlogs⟩ := hdb
  have hposts : ∀ url body headers,
      Effect.post url body headers ∈ (event cfg db message env).effects →
      ∃ s ∈ db.file.subscribers, s.status = "verified" ∧ s.url = url := by
    intro url body headers hmem
    rcases heff _ hmem with h | ⟨s, hs, h⟩ | ⟨ms, h⟩ | ⟨doc, h, _⟩ | ⟨log, h⟩
    · simp at h
    · simp only [verifiedSubscribers, List.mem_filter, beq_iff_eq] at hs
      injection h with h1 h2 h3
      exact ⟨s, hs.1, hs.2, h1.symm⟩
    · cases h
    · cases h
    · cases h
  have hev : event cfg db message env
      = { response := .sent (eventLoop cfg env
            { message := messageOrDefault message, timestamp := env.now }
            (verifiedSubscribers db.file) 0
            { db := db.read, results := [], effects := [] }).results,
          db := (eventLoop cfg env
            { message := messageOrDefault message, timestamp := env.now }
            (verifiedSubscribers db.file) 0 { db := db.read, results := [], effects := [] }).db,
          effects := (eventLoop cfg env
            { message := messageOrDefault message, timestamp := env.now }
            (verifiedSubscribers db.file) 0
            { db := db.read, results := [], effects := [] }).effects } := rfl
  refine ⟨?_, ?_, ?_, ?_, hposts, ?_, ?_⟩
  · rw [hev]; simp only []; rw [hfd, hsubs]; rfl
  · rw [hev]; simp only []; rw [hfd, hlogs]; simp [Db.read, deliveryLog]
  · rw [hev]; simp only []; rw [hfd, hlogs]; simp [Db.read]
  · rw [hev]; simp only []; rw [hres]; simp
  · intro hnd p hp hpend body headers hmem
    obtain ⟨s, hs, hver, hurl⟩ := hposts _ _ _ hmem
    have hsp : s = p := by
      by_contra hne
      exact hne (List.inj_on_of_nodup_map hnd hs hp hurl)
    rw [hsp, hpend] at hver
    exact absurd hver (by decide)
  · intro hnone
    have hnil : verifiedSubscribers db.file = [] := by
      simp only [verifiedSubscribers, List.filter_eq_nil_iff, beq_iff_eq]
      exact hnone
    have hev2 : event cfg db message env
        = { response := .sent [], db := db.read, effects := [] } := by
      rw [hev, hnil]; rfl
    rw [hev2]
    exact ⟨rfl, rfl, rfl⟩

end ProjetoMeta
namespace ProjetoMeta

/-! ### `POST /subscribe` -/

/-- Marking the record pushed last: the assignment of `index.js:83` changes the
status of the last record and nothing else. -/
theorem setVerified_push (subs : List Subscriber) (s : Subscriber) :
    setVerified (subs ++ [s]) subs.length = subs ++ [{ s with status := "verified" }] := by
  induction subs with
  | nil => rfl
  | cons a l ih => simpa [setVerified, List.modify] using ih

/-- `find` returns nothing when no record has the url. -/
theorem find_url_none (subs : List Subscriber) (url : String)
    (h : ∀ s ∈ subs, s.url ≠ url) : subs.find? (fun s => s.url == url) = none := by
  simp only [List.find?_eq_none, beq_iff_eq]
  exact h

/-- What `POST /subscribe` does for a url that is not registered yet. -/
theorem subscribe_new (db : Db) (url : String) (env : SubscribeEnv) (hurl : url ≠ "")
    (hnew : ∀ s ∈ db.file.subscribers, s.url ≠ url) :
    subscribe db url env =
      match axiosPost env.handshake with
      | .ok r =>
        if r.data.lookup "challenge" = some (slice16 env.challengeId) then
          { response := .subscriber ⟨env.id, url, "verified", slice16 env.challengeId, env.now⟩,
            db := ⟨⟨db.file.subscribers ++
                    [⟨env.id, url, "verified", slice16 env.challengeId, env.now⟩], db.file.logs⟩,
                   ⟨db.file.subscribers ++
                    [⟨env.id, url, "verified", slice16 env.challengeId, env.now⟩], db.file.logs⟩⟩,
            effects :=
              [.write ⟨db.file.subscribers ++
                  [⟨env.id, url, "pending", slice16 env.challengeId, env.now⟩], db.file.logs⟩,
               .post (verifyUrl url) (.challenge (slice16 env.challengeId)) [],
               .write ⟨db.file.subscribers ++
                  [⟨env.id, url, "verified", slice16 env.challengeId, env.now⟩], db.file.logs⟩] }
        else
          { response := .subscriber ⟨env.id, url, "pending", slice16 env.challengeId, env.now⟩,
            db := ⟨⟨db.file.subscribers ++
                    [⟨env.id, url, "pending", slice16 env.challengeId, env.now⟩], db.file.logs⟩,
                   ⟨db.file.subscribers ++
                    [⟨env.id, url, "pending", slice16 env.challengeId, env.now⟩], db.file.logs⟩⟩,
            effects :=
              [.write ⟨db.file.subscribers ++
                  [⟨env.id, url, "pending", slice16 env.challengeId, env.now⟩], db.file.logs⟩,
               .post (verifyUrl url) (.challenge (slice16 env.challengeId)) []] }
      | .error _ =>
        { response := .subscriber ⟨env.id, url, "pending", slice16 env.challengeId, env.now⟩,
          db := ⟨⟨db.file.subscribers ++
                  [⟨env.id, url, "pending", slice16 env.challengeId, env.now⟩], db.file.logs⟩,
                 ⟨db.file.subscribers ++
                  [⟨env.id, url, "pending", slice16 env.challengeId, env.now⟩], db.file.logs⟩⟩,
          effects :=
            [.write ⟨db.file.subscribers ++
                [⟨env.id, url, "pending", slice16 env.challengeId, env.now⟩], db.file.logs⟩,
             .post (verifyUrl url) (.challenge (slice16 env.challengeId)) []] } := by
  have hfind := find_url_none db.file.subscribers url hnew
  cases hres : axiosPost env.handshake with
  | error err => simp [subscribe, hurl, Db.read, Db.write, hfind, hres]
  | ok r =>
    by_cases hch : r.data.lookup "challenge" = some (slice16 env.challengeId)
    · simp [subscribe, hurl, Db.read, Db.write, hfind, hres, hch, setVerified_push]
    · simp [subscribe, hurl, Db.read, Db.write, hfind, hres, hch]

end ProjetoMeta
namespace ProjetoMeta

/-- C4, counterexample: the verify endpoint answers the handshake POST with
status 500 and a body whose `challenge` field equals the generated challenge.
The claim says the subscriber is verified; `axios.post` rejects the response,
the `catch` of `index.js:86` swallows it, and the subscriber is returned and
persisted as pending. -/
theorem subscribe_pending_on_500_echo :
    slice16 "0123456789abcdef7890" = "0123456789abcdef" ∧
      List.lookup "challenge" [("challenge", "0123456789abcdef")] = some "0123456789abcdef" ∧
      subscribe ⟨⟨[], []⟩, ⟨[], []⟩⟩ "http://a.test"
          ⟨"id-1", "0123456789abcdef7890", "t1",
            .response 500 [("challenge", "0123456789abcdef")]⟩
        = { response := .subscriber ⟨"id-1", "http://a.test", "pending", "0123456789abcdef", "t1"⟩,
            db := ⟨⟨[⟨"id-1", "http://a.test", "pending", "0123456789abcdef", "t1"⟩], []⟩,
                   ⟨[⟨"id-1", "http://a.test", "pending", "0123456789abcdef", "t1"⟩], []⟩⟩,
            effects :=
              [.write ⟨[⟨"id-1", "http://a.test", "pending", "0123456789abcdef", "t1"⟩], []⟩,
               .post "http://a.test/verify" (.challenge "0123456789abcdef") []] } := by
  decide

/-- C4, as amended: for every store state and every non-empty url not already
registered, `POST /subscribe` succeeds and appends exactly one new subscriber
at the end of the subscriber list, leaving the log as it is; it issues exactly
one handshake POST, to the verify url, carrying the generated challenge; the
status of the new subscriber, both as returned and as persisted, is verified if
and only if that POST returned a response with a status from 200 to 299 whose
body's `challenge` field equals the challenge generated for this registration,
and is pending in every other case. -/
theorem subscribe_verified_iff_handshake (db : Db) (url : String) (env : SubscribeEnv)
    (hurl : url ≠ "") (hnew : ∀ s ∈ db.file.subscribers, s.url ≠ url) :
    ∃ sub : Subscriber,
      (subscribe db url env).response = .subscriber sub ∧
      (subscribe db url env).db.file.subscribers = db.file.subscribers ++ [sub] ∧
      (subscribe db url env).db.file.logs = db.file.logs ∧
      sub.id = env.id ∧ sub.url = url ∧ sub.challenge = slice16 env.challengeId ∧
      sub.createdAt = env.now ∧
      posts (subscribe db url env).effects
        = [.post (verifyUrl url) (.challenge (slice16 env.challengeId)) []] ∧
      (sub.status = "verified" ↔
        ∃ status data, env.handshake = .response status data ∧ 200 ≤ status ∧ status < 300 ∧
          data.lookup "challenge" = some (slice16 env.challengeId)) ∧
      (sub.status ≠ "verified" → sub.status = "pending") := by
  rw [subscribe_new db url env hurl hnew]
  cases hh : env.handshake with
  | transportError m =>
    refine ⟨⟨env.id, url, "pending", slice16 env.challengeId, env.now⟩, ?_⟩
    simp [axiosPost, posts]
  | response status data =>
    by_cases hv : validateStatus status = true
    · have hv2 : 200 ≤ status ∧ status < 300 := by simpa [validateStatus] using hv
      by_cases hch : List.lookup "challenge" data = some (slice16 env.challengeId)
      · refine ⟨⟨env.id, url, "verified", slice16 env.challengeId, env.now⟩, ?_⟩
        simp [axiosPost, hv, hch, posts]
        exact ⟨status, data, ⟨rfl, rfl⟩, hv2.1, hv2.2, hch⟩
      · refine ⟨⟨env.id, url, "pending", slice16 env.challengeId, env.now⟩, ?_⟩
        simp [axiosPost, hv, hch, posts]
    · refine ⟨⟨env.id, url, "pending", slice16 env.challengeId, env.now⟩, ?_⟩
      have hv3 : ¬ (200 ≤ status ∧ status < 300) := by simpa [validateStatus] using hv
      simp only [axiosPost, hv]
      simp [posts]
      intro h1 h2
      exact absurd ⟨h1, h2⟩ hv3

/-- C4, witness: registering `http://b.test` in a store holding one other
subscriber, with a 200 answer echoing the challenge. -/
theorem subscribe_verified_iff_handshake_witness :
    ∃ sub : Subscriber,
      (subscribe ⟨⟨[⟨"id-0", "http://a.test", "pending", "c0", "t0"⟩], []⟩, ⟨[], []⟩⟩
        "http://b.test"
        ⟨"id-1", "0123456789abcdef7890", "t1",
          .response 200 [("challenge", "0123456789abcdef")]⟩).response = .subscriber sub ∧
      (subscribe ⟨⟨[⟨"id-0", "http://a.test", "pending", "c0", "t0"⟩], []⟩, ⟨[], []⟩⟩
        "http://b.test"
        ⟨"id-1", "0123456789abcdef7890", "t1",
          .response 200 [("challenge", "0123456789abcdef")]⟩).db.file.subscribers
        = [⟨"id-0", "http://a.test", "pending", "c0", "t0"⟩] ++ [sub] ∧
      sub.status = "verified" :=
  have h := subscribe_verified_iff_handshake
    ⟨⟨[⟨"id-0", "http://a.test", "pending", "c0", "t0"⟩], []⟩, ⟨[], []⟩⟩ "http://b.test"
    ⟨"id-1", "0123456789abcdef7890", "t1", .response 200 [("challenge", "0123456789abcdef")]⟩
    (by decide) (by decide)
  match h with
  | ⟨sub, h1, h2, _, _, _, _, _, _, h9, _⟩ =>
    ⟨sub, h1, h2, h9.mpr ⟨200, [("challenge", "0123456789abcdef")], rfl, by decide, by decide,
      by decide⟩⟩

end ProjetoMeta
namespace ProjetoMeta

/-- What `POST /subscribe` does for a url that is registered: it answers with
the first record having the url, after reading the store, and does nothing
else. -/
theorem subscribe_existing (db : Db) (url : String) (env : SubscribeEnv) (hurl : url ≠ "")
    (found : Subscriber)
    (hfind : db.file.subscribers.find? (fun s => s.url == url) = some found) :
    subscribe db url env = { response := .subscriber found, db := db.read, effects := [] } := by
  simp [subscribe, hurl, Db.read, hfind]

/-- After `POST /subscribe` for a url that is not registered yet, disk and
memory hold the old subscribers followed by the returned record, which has
the url. -/
theorem subscribe_new_db (db : Db) (url : String) (env : SubscribeEnv) (hurl : url ≠ "")
    (hnew : ∀ s ∈ db.file.subscribers, s.url ≠ url) :
    ∃ sub : Subscriber, sub.url = url ∧ sub.id = env.id ∧
      (subscribe db url env).response = .subscriber sub ∧
      (subscribe db url env).db
        = ⟨⟨db.file.subscribers ++ [sub], db.file.logs⟩,
           ⟨db.file.subscribers ++ [sub], db.file.logs⟩⟩ := by
  rw [subscribe_new db url env hurl hnew]
  cases axiosPost env.handshake with
  | error err => exact ⟨_, rfl, rfl, rfl, rfl⟩
  | ok r =>
    by_cases hch : r.data.lookup "challenge" = some (slice16 env.challengeId)
    · simp only [hch, if_true]
      exact ⟨_, rfl, rfl, rfl, rfl⟩
    · simp only [hch, if_false]
      exact ⟨_, rfl, rfl, rfl, rfl⟩

/-- C5: for every store whose subscriber urls are pairwise distinct, every
non-empty url and any handshake outcomes, two consecutive `POST /subscribe`
calls with that url return the same subscriber record, hence the same id; the
record returned by the second call is stored; the second call leaves the
store unchanged and has no effect, in particular no handshake request; and
afterwards exactly one subscriber has that url and the urls are still pairwise
distinct. -/
theorem subscribe_twice_same_subscriber (db : Db) (url : String) (env₁ env₂ : SubscribeEnv)
    (hdistinct : (db.file.subscribers.map (fun s => s.url)).Nodup) (hurl : url ≠ "") :
    ∃ sub : Subscriber,
      (subscribe db url env₁).response = .subscriber sub ∧
      (subscribe (subscribe db url env₁).db url env₂).response = .subscriber sub ∧
      sub ∈ (subscribe db url env₁).db.file.subscribers ∧
      (subscribe (subscribe db url env₁).db url env₂).db.file = (subscribe db url env₁).db.file ∧
      (subscribe (subscribe db url env₁).db url env₂).effects = [] ∧
      ((subscribe (subscribe db url env₁).db url env₂).db.file.subscribers.map
        (fun s => s.url)).count url = 1 ∧
      ((subscribe (subscribe db url env₁).db url env₂).db.file.subscribers.map
        (fun s => s.url)).Nodup := by
  cases hfind : db.file.subscribers.find? (fun s => s.url == url) with
  | some found =>
    have h1 := subscribe_existing db url env₁ hurl found hfind
    have h2 := subscribe_existing db.read url env₂ hurl found hfind
    have hmem : found ∈ db.file.subscribers := List.mem_of_find?_eq_some hfind
    have hfurl : found.url = url := by simpa using List.find?_some hfind
    rw [h1, h2]
    refine ⟨found, rfl, rfl, hmem, rfl, rfl, ?_, hdistinct⟩
    exact List.count_eq_one_of_mem hdistinct (List.mem_map.mpr ⟨found, hmem, hfurl⟩)
  | none =>
    have hnew : ∀ s ∈ db.file.subscribers, s.url ≠ url := by
      simpa using hfind
    obtain ⟨sub, hsu, _, hresp, hdb⟩ := subscribe_new_db db url env₁ hurl hnew
    have hfind2 : (subscribe db url env₁).db.file.subscribers.find? (fun s => s.url == url)
        = some sub := by
      rw [hdb]
      simp [List.find?_append, hfind, hsu]
    have h2 := subscribe_existing (subscribe db url env₁).db url env₂ hurl sub hfind2
    have hnd : (((subscribe db url env₁).db.file.subscribers).map (fun s => s.url)).Nodup := by
      rw [hdb]
      simp only [List.map_append, List.map_cons, List.map_nil]
      refine List.Nodup.append hdistinct (List.nodup_singleton _) ?_
      intro u hu hu2
      obtain ⟨s, hs, heq⟩ := List.mem_map.mp hu
      have hus : u = sub.url := by simpa using hu2
      exact hnew s hs (heq.trans (hus.trans hsu))
    have hmem : sub ∈ (subscribe db url env₁).db.file.subscribers := by
      rw [hdb]; simp
    rw [h2]
    refine ⟨sub, hresp, rfl, hmem, rfl, rfl, ?_, hnd⟩
    exact List.count_eq_one_of_mem hnd (List.mem_map.mpr ⟨sub, hmem, hsu⟩)

/-- C5, witness: registering `http://b.test` twice in a store that holds one
other subscriber; the first handshake fails, the second call is offered a
handshake that would succeed. -/
theorem subscribe_twice_same_subscriber_witness :
    ∃ sub : Subscriber,
      (subscribe ⟨⟨[⟨"id-0", "http://a.test", "verified", "c0", "t0"⟩], []⟩, ⟨[], []⟩⟩
        "http://b.test" ⟨"id-1", "c1", "t1", .transportError "timeout"⟩).response
          = .subscriber sub ∧
      (subscribe
        (subscribe ⟨⟨[⟨"id-0", "http://a.test", "verified", "c0", "t0"⟩], []⟩, ⟨[], []⟩⟩
          "http://b.test" ⟨"id-1", "c1", "t1", .transportError "timeout"⟩).db
        "http://b.test" ⟨"id-2", "c2", "t2", .response 200 [("challenge", "c2")]⟩).response
          = .subscriber sub :=
  match subscribe_twice_same_subscriber
      ⟨⟨[⟨"id-0", "http://a.test", "verified", "c0", "t0"⟩], []⟩, ⟨[], []⟩⟩ "http://b.test"
      ⟨"id-1", "c1", "t1", .transportError "timeout"⟩
      ⟨"id-2", "c2", "t2", .response 200 [("challenge", "c2")]⟩ (by decide) (by decide) with
  | ⟨sub, h1, h2, _⟩ => ⟨sub, h1, h2⟩

end ProjetoMeta
namespace ProjetoMeta

/-! ### `DELETE /subscribers/:id` -/

/-- `findIndex` finds nothing exactly when no element passes the test. -/
theorem findIndex_eq_none {α : Type} (p : α → Bool) (l : List α) :
    findIndex p l = none ↔ ∀ x ∈ l, p x = false := by
  induction l with
  | nil => simp [findIndex]
  | cons a l ih =>
    by_cases ha : p a = true
    · simp [findIndex, ha]
    · simp [findIndex, ha, ih]

/-- When `findIndex` finds an index, it is that of the first element passing
the test, and `eraseIdx` there removes exactly this element. -/
theorem findIndex_eq_some {α : Type} (p : α → Bool) (l : List α) (idx : Nat)
    (h : findIndex p l = some idx) :
    ∃ before a after, l = before ++ a :: after ∧ p a = true ∧
      (∀ x ∈ before, p x = false) ∧ l.eraseIdx idx = before ++ after := by
  induction l generalizing idx with
  | nil => simp [findIndex] at h
  | cons b l ih =>
    by_cases hb : p b = true
    · simp [findIndex, hb] at h
      subst h
      exact ⟨[], b, l, rfl, hb, by simp, rfl⟩
    · simp only [findIndex, hb, Bool.false_eq_true, if_false, Option.map_eq_some'] at h
      obtain ⟨j, hj, rfl⟩ := h
      obtain ⟨before, a, after, hl, ha, hbefore, herase⟩ := ih j hj
      refine ⟨b :: before, a, after, by simp [hl], ha, ?_, by simp [herase]⟩
      intro x hx
      rcases List.mem_cons.mp hx with rfl | hx
      · simpa using hb
      · exact hbefore x hx

/-- C7: for every store state and every id, `DELETE /subscribers/:id` answers
404 `not found` if and only if no stored subscriber has that id, and in that
case the store is unchanged and nothing is written; otherwise it answers
`{success: true}` and the subscriber list afterwards is the previous list with
exactly the first entry having that id removed, all other subscribers and
their order unchanged, and the log as it was. -/
theorem deleteSubscriber_removes_first_match (db : Db) (id : String) :
    ((deleteSubscriber db id).response = .error 404 "not found" ↔
        ∀ s ∈ db.file.subscribers, s.id ≠ id) ∧
      ((∀ s ∈ db.file.subscribers, s.id ≠ id) →
        (deleteSubscriber db id).db.file = db.file ∧ (deleteSubscriber db id).effects = []) ∧
      ((∃ s ∈ db.file.subscribers, s.id = id) →
        (deleteSubscriber db id).response = .success ∧
        (deleteSubscriber db id).db.file.logs = db.file.logs ∧
        ∃ before s after, db.file.subscribers = before ++ s :: after ∧ s.id = id ∧
          (∀ x ∈ before, x.id ≠ id) ∧
          (deleteSubscriber db id).db.file.subscribers = before ++ after) := by
  cases hidx : findIndex (fun s : Subscriber => s.id == id) db.file.subscribers with
  | none =>
    have hall : ∀ s ∈ db.file.subscribers, s.id ≠ id := by
      simpa using (findIndex_eq_none _ _).mp hidx
    have hdel : deleteSubscriber db id
        = { response := .error 404 "not found", db := db.read, effects := [] } := by
      simp [deleteSubscriber, Db.read, hidx]
    rw [hdel]
    refine ⟨⟨fun _ => hall, fun _ => rfl⟩, fun _ => ⟨rfl, rfl⟩, ?_⟩
    rintro ⟨s, hs, hsid⟩
    exact absurd hsid (hall s hs)
  | some idx =>
    obtain ⟨before, a, after, hl, ha, hbefore, herase⟩ := findIndex_eq_some _ _ _ hidx
    have haid : a.id = id := by simpa using ha
    have hdel : deleteSubscriber db id
        = { response := .success,
            db := ⟨⟨db.file.subscribers.eraseIdx idx, db.file.logs⟩,
                   ⟨db.file.subscribers.eraseIdx idx, db.file.logs⟩⟩,
            effects := [.write ⟨db.file.subscribers.eraseIdx idx, db.file.logs⟩] } := by
      simp [deleteSubscriber, Db.read, Db.write, hidx]
    have hin : a ∈ db.file.subscribers := by rw [hl]; simp
    rw [hdel]
    refine ⟨⟨fun h => (by cases h), fun h => absurd haid (h a hin)⟩,
      fun h => absurd haid (h a hin), fun _ => ⟨rfl, rfl, before, a, after, hl, haid, ?_, herase⟩⟩
    intro x hx
    simpa using hbefore x hx

end ProjetoMeta
namespace ProjetoMeta

/-! ### The log -/

/-- `POST /subscribe` never touches the log: not in the store it leaves, not in
any document it writes. -/
theorem subscribe_logs (db : Db) (url : String) (env : SubscribeEnv) :
    (subscribe db url env).db.file.logs = db.file.logs ∧
      ∀ doc ∈ writes (subscribe db url env).effects, doc.logs = db.file.logs := by
  by_cases hurl : url = ""
  · simp [subscribe, hurl, writes]
  · cases hfind : db.file.subscribers.find? (fun s => s.url == url) with
    | some found =>
      rw [subscribe_existing db url env hurl found hfind]
      simp [Db.read, writes]
    | none =>
      have hnew : ∀ s ∈ db.file.subscribers, s.url ≠ url := by simpa using hfind
      rw [subscribe_new db url env hurl hnew]
      cases axiosPost env.handshake with
      | error err => simp [writes]
      | ok r =>
        by_cases hch : r.data.lookup "challenge" = some (slice16 env.challengeId)
        · simp [hch, writes]
        · simp [hch, writes]

/-- `DELETE /subscribers/:id` never touches the log. -/
theorem deleteSubscriber_logs (db : Db) (id : String) :
    (deleteSubscriber db id).db.file.logs = db.file.logs ∧
      ∀ doc ∈ writes (deleteSubscriber db id).effects, doc.logs = db.file.logs := by
  cases hidx : findIndex (fun s : Subscriber => s.id == id) db.file.subscribers with
  | none => simp [deleteSubscriber, Db.read, hidx, writes]
  | some idx => simp [deleteSubscriber, Db.read, Db.write, hidx, writes]

/-- `POST /event` only appends to the log, in the store it leaves and in every
document it writes. -/
theorem event_logs (cfg : Config) (db : Db) (message : Option String) (env : EventEnv) :
    db.file.logs <+: (event cfg db message env).db.file.logs ∧
      ∀ doc ∈ writes (event cfg db message env).effects, db.file.logs <+: doc.logs := by
  refine ⟨?_, ?_⟩
  · obtain ⟨hfd, _, hlogs⟩ := eventLoop_db cfg env
      { message := messageOrDefault message, timestamp := env.now }
      (verifiedSubscribers db.file) 0 { db := db.read, results := [], effects := [] } rfl
    show db.file.logs <+: (eventLoop cfg env
      { message := messageOrDefault message, timestamp := env.now }
      (verifiedSubscribers db.file) 0 { db := db.read, results := [], effects := [] }).db.file.logs
    rw [hfd, hlogs]
    exact List.prefix_append _ _
  · intro doc hdoc
    have hmem : Effect.write doc ∈ (event cfg db message env).effects := by
      simp only [writes, List.mem_filterMap] at hdoc
      obtain ⟨e, he, hsome⟩ := hdoc
      cases e with
      | write d => simp at hsome; subst hsome; exact he
      | post u b h => simp at hsome
      | wait ms => simp at hsome
      | emit l => simp at hsome
    rcases eventLoop_effects cfg env _ _ _ _ _ hmem with h | ⟨_, _, h⟩ | ⟨_, h⟩ |
      ⟨d, h, _, hl⟩ | ⟨_, h⟩
    · simp at h
    · cases h
    · cases h
    · injection h with h
      subst h
      exact hl
    · cases h

/-- C8: logs are append-only. For every store state and every operation of the
API (subscribe, list subscribers, delete subscriber, trigger event, read logs,
live-channel snapshot), the log list before the operation is a prefix of the
log list after it and of the log list of every document the operation writes
on the way; and for every operation other than the event trigger, deleting a
subscriber included, the log list after it is the log list before it. -/
theorem logs_append_only (cfg : Config) (db : Db) (op : Op) :
    db.file.logs <+: (step cfg db op).db.file.logs ∧
      (∀ doc ∈ writes (step cfg db op).effects, db.file.logs <+: doc.logs) ∧
      ((∀ message env, op ≠ .event message env) →
        (step cfg db op).db.file.logs = db.file.logs) := by
  cases op with
  | subscribe url env =>
    obtain ⟨h1, h2⟩ := subscribe_logs db url env
    refine ⟨?_, ?_, fun _ => h1⟩
    · show db.file.logs <+: (subscribe db url env).db.file.logs
      rw [h1]
    · intro doc hdoc
      rw [h2 doc hdoc]
  | getSubscribers =>
    exact ⟨List.prefix_refl _, by simp [step, getSubscribers, writes], fun _ => rfl⟩
  | deleteSubscriber id =>
    obtain ⟨h1, h2⟩ := deleteSubscriber_logs db id
    refine ⟨?_, ?_, fun _ => h1⟩
    · show db.file.logs <+: (deleteSubscriber db id).db.file.logs
      rw [h1]
    · intro doc hdoc
      rw [h2 doc hdoc]
  | event message env =>
    obtain ⟨h1, h2⟩ := event_logs cfg db message env
    exact ⟨h1, h2, fun h => absurd rfl (h message env)⟩
  | getLogs =>
    exact ⟨List.prefix_refl _, by simp [step, getLogs, writes], fun _ => rfl⟩
  | connection =>
    exact ⟨List.prefix_refl _, by simp [step, connection, writes], fun _ => rfl⟩

/-- C10: for every stored log list of length `n`, `GET /logs` returns all `n`
entries in the reverse of their append order (the entry at position `i` of the
answer is the one appended at position `n - 1 - i`), and the snapshot pushed to
a newly connected observer is the first `min 50 n` entries of that reversed
list: it has `min 50 n` entries, and they are the last `min 50 n` appended
ones, newest first. Neither read changes the stored document or has any
effect. -/
theorem logs_most_recent_first (db : Db) :
    (getLogs db).response = .logs db.file.logs.reverse ∧
      db.file.logs.reverse.length = db.file.logs.length ∧
      (∀ i, i < db.file.logs.length →
        db.file.logs.reverse[i]? = db.file.logs[db.file.logs.length - 1 - i]?) ∧
      (connection db).response = .logs (db.file.logs.reverse.take 50) ∧
      (db.file.logs.reverse.take 50).length = min 50 db.file.logs.length ∧
      db.file.logs.reverse.take 50
        = (db.file.logs.drop (db.file.logs.length - 50)).reverse ∧
      (getLogs db).db.file = db.file ∧ (getLogs db).effects = [] ∧
      (connection db).db.file = db.file ∧ (connection db).effects = [] := by
  refine ⟨rfl, List.length_reverse _, ?_, rfl, ?_, ?_, rfl, rfl, rfl, rfl⟩
  · intro i hi
    exact List.getElem?_reverse hi
  · simp
  · rw [List.take_reverse]

end ProjetoMeta

namespace ProjetoMeta

/-! ### Start-up -/

/-- C9, counterexample: the initial read throws (the file on disk is not JSON)
and the initial write succeeds. The claim says `initDb` fails and the process
exits; the `catch` of `index.js:38` swallows the error, `initDb` resolves and
the server listens, on an empty store. -/
theorem main_listens_after_failed_read :
    initDb ⟨true, none, .throws "Unexpected token < in JSON at position 0", none⟩
        = .ok ⟨⟨[], []⟩, ⟨[], []⟩⟩ ∧
      main ⟨true, none, .throws "Unexpected token < in JSON at position 0", none⟩
        = .listening ⟨⟨[], []⟩, ⟨[], []⟩⟩ :=
  ⟨rfl, rfl⟩

/-- C9, as amended: a persistence write failure at start-up is fatal. For every
outcome of the initial read, the process exits with code 1, without ever
listening, if and only if `initDb` fails, which happens exactly when the data
directory is missing and cannot be created or the initial write fails. In
every other case `initDb` succeeds and the server listens, and the store it
serves, on disk and in memory, is the document read, or the empty store when
there was none or the read failed. In particular a failed initial read is not
fatal: when the directory is there or can be created and the write succeeds,
the server listens on the empty store. -/
theorem main_exits_iff_write_fails (env : StartupEnv) :
    (main env = .exited 1 ↔ ∃ message, initDb env = .error message) ∧
      ((∃ message, initDb env = .error message) ↔
        (env.dirExists = false ∧ env.mkdirError ≠ none) ∨ env.writeError ≠ none) ∧
      ((env.dirExists = true ∨ env.mkdirError = none) → env.writeError = none →
        initDb env = .ok
          { file := match env.read with
              | .document doc => doc
              | .absent => emptyStore
              | .throws _ => emptyStore,
            data := match env.read with
              | .document doc => doc
              | .absent => emptyStore
              | .throws _ => emptyStore } ∧
        main env = .listening
          { file := match env.read with
              | .document doc => doc
              | .absent => emptyStore
              | .throws _ => emptyStore,
            data := match env.read with
              | .document doc => doc
              | .absent => emptyStore
              | .throws _ => emptyStore }) ∧
      (∀ message, env.read = .throws message →
        (env.dirExists = true ∨ env.mkdirError = none) → env.writeError = none →
        main env = .listening { file := emptyStore, data := emptyStore }) ∧
      (∀ db, main env = .listening db →
        env.writeError = none ∧ db.file = db.data ∧
        db.file = match env.read with
          | .document doc => doc
          | .absent => emptyStore
          | .throws _ => emptyStore) := by
  obtain ⟨dirExists, mkdirError, read, writeError⟩ := env
  cases dirExists <;> cases mkdirError <;> cases writeError <;> cases read <;>
    simp [main, initDb]

end ProjetoMeta

namespace ProjetoMeta

/-! ### Verification never reverts -/

theorem survives_refl (seen : List String) (σ : Store) : Survives seen σ σ :=
  fun t ht _ => ⟨t, ht, rfl, id⟩

theorem survives_of_subscribers_eq {seen : List String} {σ τ : Store}
    (h : τ.subscribers = σ.subscribers) : Survives seen σ τ :=
  fun t ht _ => ⟨t, h ▸ ht, rfl, id⟩

theorem survives_trans {seen seen' : List String} {σ τ υ : Store} (hsub : ∀ x ∈ seen, x ∈ seen')
    (h₁ : Survives seen σ τ) (h₂ : Survives seen' τ υ) : Survives seen σ υ := by
  intro t ht hseen
  obtain ⟨m, hm, hmid, hmv⟩ := h₂ t ht (hsub _ hseen)
  obtain ⟨s, hs, hsid, hsv⟩ := h₁ m hm (hmid ▸ hseen)
  exact ⟨s, hs, hsid.trans hmid, fun hv => hmv (hsv hv)⟩

theorem knownIds_of_subscribers_eq {seen seen' : List String} {σ τ : Store}
    (hsub : ∀ x ∈ seen, x ∈ seen') (h : τ.subscribers = σ.subscribers) (hk : KnownIds seen σ) :
    KnownIds seen' τ := by
  unfold KnownIds
  rw [h]
  exact ⟨hk.1, fun s hs => hsub _ (hk.2 s hs)⟩

/-- With pairwise distinct ids a subscriber is determined by its id. -/
theorem eq_of_id_eq {l : List Subscriber} (hnd : (l.map (fun s => s.id)).Nodup)
    {s t : Subscriber} (hs : s ∈ l) (ht : t ∈ l) (h : s.id = t.id) : s = t :=
  List.inj_on_of_nodup_map hnd hs ht h

theorem neverReverts_of_survives {seen : List String} {σ τ : Store} (hk : KnownIds seen σ)
    (h : Survives seen σ τ) : NeverReverts σ τ := by
  intro s hs hv t ht hid
  obtain ⟨s', hs', hid', hv'⟩ := h t ht (hid ▸ hk.2 s hs)
  have : s' = s := eq_of_id_eq hk.1 hs' hs (hid'.trans hid)
  subst this
  exact hv' hv

/-- An operation that writes only documents with the subscribers it found and
leaves them as they were. -/
theorem stepOk_of_unchanged {seen seen' : List String} {σ τ : Store} {ws : List Store}
    (hsub : ∀ x ∈ seen, x ∈ seen') (hk : KnownIds seen σ)
    (hws : ∀ w ∈ ws, w.subscribers = σ.subscribers) (hτ : τ.subscribers = σ.subscribers) :
    StepOk seen seen' σ ws τ := by
  refine ⟨knownIds_of_subscribers_eq hsub hτ hk, survives_of_subscribers_eq hτ, ?_, ?_⟩
  · intro w hw
    exact ⟨survives_of_subscribers_eq (hws w hw), knownIds_of_subscribers_eq hsub (hws w hw) hk,
      survives_of_subscribers_eq (hτ.trans (hws w hw).symm)⟩
  · apply List.pairwise_of_forall_mem_list
    intro a ha b hb
    exact neverReverts_of_survives (knownIds_of_subscribers_eq (fun x hx => hx) (hws a ha) hk)
      (survives_of_subscribers_eq ((hws b hb).trans (hws a ha).symm))

/-- An operation that removes one subscriber and writes the result once. -/
theorem stepOk_of_removed {seen : List String} {σ τ : Store} {before after : List Subscriber}
    {a : Subscriber} (hk : KnownIds seen σ) (hσ : σ.subscribers = before ++ a :: after)
    (hτ : τ.subscribers = before ++ after) : StepOk seen seen σ [τ] τ := by
  have hmem : ∀ t ∈ τ.subscribers, t ∈ σ.subscribers := by
    intro t ht
    rw [hτ] at ht
    rw [hσ]
    rcases List.mem_append.mp ht with h | h
    · exact List.mem_append_left _ h
    · exact List.mem_append_right _ (List.mem_cons_of_mem _ h)
  have hsurv : Survives seen σ τ := fun t ht _ => ⟨t, hmem t ht, rfl, id⟩
  have hkτ : KnownIds seen τ := by
    refine ⟨?_, fun s hs => hk.2 s (hmem s hs)⟩
    have hsl : List.Sublist (τ.subscribers.map (fun s => s.id))
        (σ.subscribers.map (fun s => s.id)) := by
      rw [hσ, hτ]
      exact List.Sublist.map _ (List.Sublist.append_left (List.sublist_cons_self a after) before)
    exact hk.1.sublist hsl
  refine ⟨hkτ, hsurv, ?_, List.pairwise_singleton _ _⟩
  intro w hw
  rw [List.mem_singleton.mp hw]
  exact ⟨hsurv, hkτ, survives_refl _ _⟩

/-- Appending a subscriber with a fresh id keeps the ids distinct and known. -/
theorem knownIds_push {seen : List String} {σ : Store} (τ : Store) (sub : Subscriber)
    (hk : KnownIds seen σ) (hfresh : sub.id ∉ seen)
    (hτ : τ.subscribers = σ.subscribers ++ [sub]) : KnownIds (sub.id :: seen) τ := by
  unfold KnownIds
  rw [hτ]
  refine ⟨?_, ?_⟩
  · simp only [List.map_append, List.map_cons, List.map_nil]
    refine List.Nodup.append hk.1 (List.nodup_singleton _) ?_
    intro u hu hu2
    obtain ⟨s, hs, heq⟩ := List.mem_map.mp hu
    have hus : u = sub.id := by simpa using hu2
    exact hfresh (hus ▸ heq ▸ hk.2 s hs)
  · intro s hs
    rcases List.mem_append.mp hs with h | h
    · exact List.mem_cons_of_mem _ (hk.2 s h)
    · rw [List.mem_singleton.mp h]
      exact List.mem_cons_self _ _

/-- Appending a subscriber with a fresh id does not touch the ids seen so far. -/
theorem survives_push {seen : List String} {σ : Store} (τ : Store) (sub : Subscriber)
    (hfresh : sub.id ∉ seen) (hτ : τ.subscribers = σ.subscribers ++ [sub]) :
    Survives seen σ τ := by
  intro t ht hseen
  rw [hτ] at ht
  rcases List.mem_append.mp ht with h | h
  · exact ⟨t, h, rfl, id⟩
  · rw [List.mem_singleton.mp h] at hseen
    exact absurd hseen hfresh

/-- Turning the last subscriber from pending to verified. -/
theorem survives_verify_last {seen : List String} (w τ : Store) (l : List Subscriber)
    (sub sub' : Subscriber) (hid : sub.id = sub'.id) (hst : sub.status ≠ "verified")
    (hw : w.subscribers = l ++ [sub]) (hτ : τ.subscribers = l ++ [sub']) :
    Survives seen w τ := by
  intro t ht _
  rw [hτ] at ht
  rcases List.mem_append.mp ht with h | h
  · exact ⟨t, by rw [hw]; exact List.mem_append_left _ h, rfl, id⟩
  · rw [List.mem_singleton.mp h]
    exact ⟨sub, by rw [hw]; simp, hid, fun hv => absurd hv hst⟩

end ProjetoMeta

namespace ProjetoMeta

/-- The documents written are those of the `write` effects. -/
theorem mem_writes (effects : List Effect) (doc : Store) :
    doc ∈ writes effects ↔ Effect.write doc ∈ effects := by
  simp only [writes, List.mem_filterMap]
  constructor
  · rintro ⟨e, he, hsome⟩
    cases e with
    | write d => simp at hsome; subst hsome; exact he
    | post u b h => simp at hsome
    | wait ms => simp at hsome
    | emit l => simp at hsome
  · intro h
    exact ⟨_, h, rfl⟩

/-- `POST /event` never touches the subscribers: not in the store it leaves,
not in any document it writes. -/
theorem event_subscribers (cfg : Config) (db : Db) (message : Option String) (env : EventEnv) :
    (event cfg db message env).db.file.subscribers = db.file.subscribers ∧
      ∀ doc ∈ writes (event cfg db message env).effects,
        doc.subscribers = db.file.subscribers := by
  refine ⟨?_, ?_⟩
  · obtain ⟨hfd, hsubs, _⟩ := eventLoop_db cfg env
      { message := messageOrDefault message, timestamp := env.now }
      (verifiedSubscribers db.file) 0 { db := db.read, results := [], effects := [] } rfl
    show (eventLoop cfg env
      { message := messageOrDefault message, timestamp := env.now }
      (verifiedSubscribers db.file) 0
      { db := db.read, results := [], effects := [] }).db.file.subscribers = _
    rw [hfd, hsubs]
    rfl
  · intro doc hdoc
    have hmem := (mem_writes _ _).mp hdoc
    rcases eventLoop_effects cfg env _ _ _ _ _ hmem with h | ⟨_, _, h⟩ | ⟨_, h⟩ |
      ⟨d, h, hs, _⟩ | ⟨_, h⟩
    · simp at h
    · cases h
    · cases h
    · injection h with h
      subst h
      exact hs
    · cases h

/-- One operation, as far as verification goes. -/
theorem step_ok (cfg : Config) (db : Db) (op : Op) (seen : List String)
    (hk : KnownIds seen db.file) (hfresh : ∀ id, generatedId db op = some id → id ∉ seen) :
    StepOk seen ((generatedId db op).toList ++ seen) db.file
      (writes (step cfg db op).effects) (step cfg db op).db.file := by
  have hsub : ∀ x ∈ seen, x ∈ (generatedId db op).toList ++ seen :=
    fun x hx => List.mem_append_right _ hx
  cases op with
  | getSubscribers =>
    exact stepOk_of_unchanged hsub hk (by simp [step, getSubscribers, writes]) rfl
  | getLogs => exact stepOk_of_unchanged hsub hk (by simp [step, getLogs, writes]) rfl
  | connection => exact stepOk_of_unchanged hsub hk (by simp [step, connection, writes]) rfl
  | event message env =>
    obtain ⟨h1, h2⟩ := event_subscribers cfg db message env
    exact stepOk_of_unchanged hsub hk h2 h1
  | deleteSubscriber id =>
    cases hidx : findIndex (fun s : Subscriber => s.id == id) db.file.subscribers with
    | none =>
      have hdel : deleteSubscriber db id
          = { response := .error 404 "not found", db := db.read, effects := [] } := by
        simp [deleteSubscriber, Db.read, hidx]
      show StepOk seen _ db.file (writes (deleteSubscriber db id).effects)
        (deleteSubscriber db id).db.file
      rw [hdel]
      exact stepOk_of_unchanged hsub hk (by simp [writes]) rfl
    | some idx =>
      obtain ⟨before, a, after, hl, _, _, herase⟩ := findIndex_eq_some _ _ _ hidx
      have hdel : deleteSubscriber db id
          = { response := .success,
              db := ⟨⟨db.file.subscribers.eraseIdx idx, db.file.logs⟩,
                     ⟨db.file.subscribers.eraseIdx idx, db.file.logs⟩⟩,
              effects := [.write ⟨db.file.subscribers.eraseIdx idx, db.file.logs⟩] } := by
        simp [deleteSubscriber, Db.read, Db.write, hidx]
      show StepOk seen _ db.file (writes (deleteSubscriber db id).effects)
        (deleteSubscriber db id).db.file
      rw [hdel]
      exact stepOk_of_removed hk hl herase
  | subscribe url env =>
    show StepOk seen _ db.file (writes (subscribe db url env).effects)
      (subscribe db url env).db.file
    by_cases hurl : url = ""
    · have hs : subscribe db url env
          = { response := .error 400 "url is required", db := db, effects := [] } := by
        simp [subscribe, hurl]
      rw [hs]
      exact stepOk_of_unchanged hsub hk (by simp [writes]) rfl
    · cases hfind : db.file.subscribers.find? (fun s => s.url == url) with
      | some found =>
        rw [subscribe_existing db url env hurl found hfind]
        exact stepOk_of_unchanged hsub hk (by simp [writes]) rfl
      | none =>
        have hnew : ∀ s ∈ db.file.subscribers, s.url ≠ url := by simpa using hfind
        have hgen : generatedId db (.subscribe url env) = some env.id := by
          simp [generatedId, hurl, hfind]
        have hid : env.id ∉ seen := hfresh _ hgen
        rw [hgen, subscribe_new db url env hurl hnew]
        have hkP : KnownIds (env.id :: seen)
            ⟨db.file.subscribers ++
              [⟨env.id, url, "pending", slice16 env.challengeId, env.now⟩], db.file.logs⟩ :=
          knownIds_push _ ⟨env.id, url, "pending", slice16 env.challengeId, env.now⟩ hk hid rfl
        have hsP : Survives seen db.file
            ⟨db.file.subscribers ++
              [⟨env.id, url, "pending", slice16 env.challengeId, env.now⟩], db.file.logs⟩ :=
          survives_push _ ⟨env.id, url, "pending", slice16 env.challengeId, env.now⟩ hid rfl
        have hP : StepOk seen (env.id :: seen) db.file
            [⟨db.file.subscribers ++
              [⟨env.id, url, "pending", slice16 env.challengeId, env.now⟩], db.file.logs⟩]
            ⟨db.file.subscribers ++
              [⟨env.id, url, "pending", slice16 env.challengeId, env.now⟩], db.file.logs⟩ := by
          refine ⟨hkP, hsP, ?_, List.pairwise_singleton _ _⟩
          intro w hw
          rw [List.mem_singleton.mp hw]
          exact ⟨hsP, hkP, survives_refl _ _⟩
        cases axiosPost env.handshake with
        | error err => simpa [writes] using hP
        | ok r =>
          by_cases hch : r.data.lookup "challenge" = some (slice16 env.challengeId)
          · simp only [hch, if_true]
            have hkV : KnownIds (env.id :: seen)
                ⟨db.file.subscribers ++
                  [⟨env.id, url, "verified", slice16 env.challengeId, env.now⟩], db.file.logs⟩ :=
              knownIds_push _ ⟨env.id, url, "verified", slice16 env.challengeId, env.now⟩
                hk hid rfl
            have hsV : Survives seen db.file
                ⟨db.file.subscribers ++
                  [⟨env.id, url, "verified", slice16 env.challengeId, env.now⟩], db.file.logs⟩ :=
              survives_push _ ⟨env.id, url, "verified", slice16 env.challengeId, env.now⟩
                hid rfl
            have hv : Survives (env.id :: seen)
                ⟨db.file.subscribers ++
                  [⟨env.id, url, "pending", slice16 env.challengeId, env.now⟩], db.file.logs⟩
                ⟨db.file.subscribers ++
                  [⟨env.id, url, "verified", slice16 env.challengeId, env.now⟩], db.file.logs⟩ :=
              survives_verify_last _ _ db.file.subscribers
                ⟨env.id, url, "pending", slice16 env.challengeId, env.now⟩
                ⟨env.id, url, "verified", slice16 env.challengeId, env.now⟩
                rfl (show "pending" ≠ "verified" by decide) rfl rfl
            refine ⟨hkV, hsV, ?_, ?_⟩
            · intro w hw
              simp only [writes, List.filterMap_cons, List.filterMap_nil, List.mem_cons,
                List.mem_singleton, List.not_mem_nil, or_false] at hw
              rcases hw with rfl | rfl
              · exact ⟨hsP, hkP, hv⟩
              · exact ⟨hsV, hkV, survives_refl _ _⟩
            · simp only [writes, List.filterMap_cons, List.filterMap_nil]
              exact List.pairwise_pair.mpr (neverReverts_of_survives hkP hv)
          · simp only [hch, if_false]
            simpa [writes] using hP

end ProjetoMeta

namespace ProjetoMeta

/-- Along a run with fresh ids, every document of the history keeps what the
initial store knew: a subscriber with a known id comes from the initial store
and is verified if it was. -/
theorem history_survives (cfg : Config) :
    ∀ (ops : List Op) (db : Db) (seen : List String), KnownIds seen db.file →
      FreshIds cfg seen db ops → ∀ τ ∈ history cfg db ops, Survives seen db.file τ := by
  intro ops
  induction ops with
  | nil =>
    intro db seen _ _ τ hτ
    simp only [history, List.mem_singleton] at hτ
    rw [hτ]
    exact survives_refl _ _
  | cons op ops ih =>
    intro db seen hk hfresh τ hτ
    obtain ⟨hf1, hf2⟩ := hfresh
    obtain ⟨hk', hsurv, hws, _⟩ := step_ok cfg db op seen hk hf1
    simp only [history, List.mem_cons, List.mem_append] at hτ
    rcases hτ with rfl | hτ | hτ
    · exact survives_refl _ _
    · exact (hws τ hτ).1
    · exact survives_trans (fun x hx => List.mem_append_right _ hx) hsurv
        (ih _ _ hk' hf2 τ hτ)

/-- Along a run with fresh ids, verification never reverts between an earlier
and a later document of the history, and every document has pairwise distinct
ids. -/
theorem history_pairwise (cfg : Config) :
    ∀ (ops : List Op) (db : Db) (seen : List String), KnownIds seen db.file →
      FreshIds cfg seen db ops →
      (history cfg db ops).Pairwise NeverReverts ∧
        ∀ τ ∈ history cfg db ops, (τ.subscribers.map (fun s => s.id)).Nodup := by
  intro ops
  induction ops with
  | nil =>
    intro db seen hk _
    refine ⟨List.pairwise_singleton _ _, ?_⟩
    intro τ hτ
    simp only [history, List.mem_singleton] at hτ
    rw [hτ]
    exact hk.1
  | cons op ops ih =>
    intro db seen hk hfresh
    obtain ⟨hf1, hf2⟩ := hfresh
    obtain ⟨hk', hsurv, hws, hpw⟩ := step_ok cfg db op seen hk hf1
    obtain ⟨ihp, ihn⟩ := ih _ _ hk' hf2
    have hrest := history_survives cfg ops _ _ hk' hf2
    have hsub : ∀ x ∈ seen, x ∈ (generatedId db op).toList ++ seen :=
      fun x hx => List.mem_append_right _ hx
    refine ⟨?_, ?_⟩
    · simp only [history, List.pairwise_cons, List.pairwise_append, List.mem_append]
      refine ⟨?_, hpw, ihp, ?_⟩
      · intro τ hτ
        rcases hτ with hτ | hτ
        · exact neverReverts_of_survives hk (hws τ hτ).1
        · exact neverReverts_of_survives hk (survives_trans hsub hsurv (hrest τ hτ))
      · intro w hw τ hτ
        exact neverReverts_of_survives (hws w hw).2.1
          (survives_trans (fun x hx => hx) (hws w hw).2.2 (hrest τ hτ))
    · intro τ hτ
      simp only [history, List.mem_cons, List.mem_append] at hτ
      rcases hτ with rfl | hτ | hτ
      · exact hk.1
      · exact (hws τ hτ).2.1.1
      · exact ihn τ hτ

/-- C6, counterexample: a store in which two subscribers share the id `x`, the
first verified and the second pending, and the run `DELETE /subscribers/x`. No
id is generated, so the freshness assumption holds. A subscriber with id `x` is
verified in the initial state; in the final state a subscriber with id `x` is
present and pending. -/
theorem delete_leaves_pending_duplicate :
    FreshIds ⟨"supersecret", "socksecret", fun _ _ => "sig"⟩ ["x", "x"]
        ⟨⟨[⟨"x", "http://a.test", "verified", "c1", "t1"⟩,
           ⟨"x", "http://b.test", "pending", "c2", "t2"⟩], []⟩,
         ⟨[⟨"x", "http://a.test", "verified", "c1", "t1"⟩,
           ⟨"x", "http://b.test", "pending", "c2", "t2"⟩], []⟩⟩
        [.deleteSubscriber "x"] ∧
      history ⟨"supersecret", "socksecret", fun _ _ => "sig"⟩
        ⟨⟨[⟨"x", "http://a.test", "verified", "c1", "t1"⟩,
           ⟨"x", "http://b.test", "pending", "c2", "t2"⟩], []⟩,
         ⟨[⟨"x", "http://a.test", "verified", "c1", "t1"⟩,
           ⟨"x", "http://b.test", "pending", "c2", "t2"⟩], []⟩⟩
        [.deleteSubscriber "x"]
        = [⟨[⟨"x", "http://a.test", "verified", "c1", "t1"⟩,
             ⟨"x", "http://b.test", "pending", "c2", "t2"⟩], []⟩,
           ⟨[⟨"x", "http://b.test", "pending", "c2", "t2"⟩], []⟩,
           ⟨[⟨"x", "http://b.test", "pending", "c2", "t2"⟩], []⟩] ∧
      (⟨"x", "http://a.test", "verified", "c1", "t1"⟩ : Subscriber).status = "verified" ∧
      (⟨"x", "http://b.test", "pending", "c2", "t2"⟩ : Subscriber).id
        = (⟨"x", "http://a.test", "verified", "c1", "t1"⟩ : Subscriber).id ∧
      (⟨"x", "http://b.test", "pending", "c2", "t2"⟩ : Subscriber).status ≠ "verified" := by
  refine ⟨?_, by decide, by decide, by decide, by decide⟩
  simp [FreshIds, generatedId]

/-- C6, as amended: assuming generated ids are fresh, for every finite sequence
of subscribe, delete, event and read operations started from any store state
whose subscriber ids are pairwise distinct: if a subscriber with a given id has
status verified in some document of the history (the initial store, every
document written, the store left by each operation), then in every later
document in which a subscriber with that id is present its status is
verified. -/
theorem verified_never_reverts (cfg : Config) (db : Db) (ops : List Op)
    (hids : (db.file.subscribers.map (fun s => s.id)).Nodup)
    (hfresh : FreshIds cfg (db.file.subscribers.map (fun s => s.id)) db ops) :
    ∀ (i j : Nat) (σ τ : Store), i ≤ j →
      (history cfg db ops)[i]? = some σ → (history cfg db ops)[j]? = some τ →
      ∀ s ∈ σ.subscribers, s.status = "verified" →
        ∀ t ∈ τ.subscribers, t.id = s.id → t.status = "verified" := by
  have hk : KnownIds (db.file.subscribers.map (fun s => s.id)) db.file :=
    ⟨hids, fun s hs => List.mem_map.mpr ⟨s, hs, rfl⟩⟩
  obtain ⟨hpw, hnd⟩ := history_pairwise cfg ops db _ hk hfresh
  intro i j σ τ hij hσ hτ
  obtain ⟨hi, hσ'⟩ := List.getElem?_eq_some.mp hσ
  obtain ⟨hj, hτ'⟩ := List.getElem?_eq_some.mp hτ
  rcases Nat.lt_or_eq_of_le hij with hlt | heq
  · have := List.pairwise_iff_getElem.mp hpw i j hi hj hlt
    rw [hσ', hτ'] at this
    exact this
  · subst heq
    have hστ : σ = τ := by rw [← hσ', ← hτ']
    subst hστ
    intro s hs hv t ht hid
    have hσmem : σ ∈ history cfg db ops := hσ' ▸ List.getElem_mem hi
    have : t = s := eq_of_id_eq (hnd σ hσmem) ht hs hid
    rw [this]
    exact hv

end ProjetoMeta

namespace ProjetoMeta

/-- C6, witness: in the sample run the subscriber `id-1` is verified in the
document the registration leaves (position 3 of the history) and is still
verified in the last document (position 9), after the event and the deletion
of the other subscriber. -/
theorem verified_never_reverts_witness :
    (history sampleConfig sampleDb sampleRun).length = 10 ∧
      ∀ τ, (history sampleConfig sampleDb sampleRun)[9]? = some τ →
        ∀ t ∈ τ.subscribers, t.id = "id-1" → t.status = "verified" :=
  ⟨by decide, fun τ hτ t ht hid =>
    verified_never_reverts sampleConfig sampleDb sampleRun (by decide)
      (by simp [FreshIds, generatedId, sampleRun, sampleDb]) 3 9
      ⟨[⟨"id-0", "http://a.test", "verified", "c0", "t0"⟩,
        ⟨"id-1", "http://b.test", "verified", "0123456789abcdef", "t1"⟩], []⟩ τ
      (by decide) (by decide) hτ
      ⟨"id-1", "http://b.test", "verified", "0123456789abcdef", "t1"⟩ (by decide) rfl t ht hid⟩

end ProjetoMeta

namespace ProjetoMeta

/-! ### Back-off -/

/-- The waits of `n` failed attempts in a row are `500 * (start + 1)`, ...,
`500 * (start + n)` milliseconds. -/
theorem waits_failedAttempts (url : String) (payload : RequestBody) (headers : Headers) :
    ∀ (n start : Nat), waits (failedAttempts url payload headers start n)
      = (List.range n).map (fun i => 500 * (start + i + 1)) := by
  intro n
  induction n with
  | zero => intro start; rfl
  | succ n ih =>
    intro start
    rw [List.range_succ_eq_map]
    simp only [failedAttempts, waits, List.filterMap_cons, List.map_cons, List.map_map]
    rw [show List.filterMap (fun e => match e with
        | Effect.wait ms => some ms
        | _ => none) (failedAttempts url payload headers (start + 1) n)
        = waits (failedAttempts url payload headers (start + 1) n) from rfl, ih]
    simp only [Nat.add_zero, List.cons.injEq, true_and]
    apply List.map_congr_left
    intro i _
    simp only [Function.comp, Nat.succ_eq_add_one]
    omega

/-- The loop through `n` failed attempts in a row: it arrives at attempt
`attempt + n` with the effects of these attempts appended, and `lastErr` is
the error of the last of them. -/
theorem postWithRetryLoop_failed (answers : Nat → Outcome) (url : String)
    (payload : RequestBody) (headers : Headers) (maxAttempts : Nat) :
    ∀ (n fuel attempt : Nat) (lastErr : Option AxiosError) (effects : List Effect),
      attempt + n ≤ maxAttempts →
      (∀ i, i < n → ∃ e, axiosPost (answers (attempt + i)) = .error e) →
      ∃ lastErr', postWithRetryLoop answers url payload headers maxAttempts (fuel + n) attempt
            lastErr effects
          = postWithRetryLoop answers url payload headers maxAttempts fuel (attempt + n)
            lastErr' (effects ++ failedAttempts url payload headers attempt n) ∧
        (n = 0 → lastErr' = lastErr) := by
  intro n
  induction n with
  | zero =>
    intro fuel attempt lastErr effects _ _
    exact ⟨lastErr, by simp [failedAttempts], fun _ => rfl⟩
  | succ n ih =>
    intro fuel attempt lastErr effects hle hfail
    obtain ⟨e0, he0⟩ := hfail 0 (by omega)
    have hlt : attempt < maxAttempts := by omega
    obtain ⟨lastErr', hloop, _⟩ := ih fuel (attempt + 1) (some e0)
      (effects ++ [.post url payload headers, .wait (500 * (attempt + 1))]) (by omega)
      (fun i hi => by
        have := hfail (i + 1) (by omega)
        rwa [show attempt + (i + 1) = attempt + 1 + i by omega] at this)
    refine ⟨lastErr', ?_, fun h => by omega⟩
    rw [show fuel + (n + 1) = (fuel + n) + 1 by omega, postWithRetryLoop]
    simp only [hlt, if_true]
    rw [Nat.add_zero] at he0
    rw [he0]
    simp only []
    rw [hloop, show attempt + 1 + n = attempt + (n + 1) by omega]
    simp [failedAttempts]

end ProjetoMeta

namespace ProjetoMeta

/-- C13, counterexample: an endpoint that never answers, with `maxAttempts = 3`
and with `maxAttempts = 1`. After the failed attempt that exhausts the budget
the claim promises a return without any further wait; the code waits
`maxAttempts * 500` ms once more (1500 ms, resp. 500 ms) before it returns
`{success: false}`. -/
theorem postWithRetry_waits_after_last_attempt :
    postWithRetry (fun _ => Outcome.transportError "timeout of 5000ms exceeded")
        "http://a.test" (.challenge "c") [] 3
      = { result := .failure "timeout of 5000ms exceeded",
          effects :=
            [.post "http://a.test" (.challenge "c") [], .wait 500,
             .post "http://a.test" (.challenge "c") [], .wait 1000,
             .post "http://a.test" (.challenge "c") [], .wait 1500] } ∧
      postWithRetry (fun _ => Outcome.transportError "timeout of 5000ms exceeded")
        "http://a.test" (.challenge "c") [] 1
      = { result := .failure "timeout of 5000ms exceeded",
          effects := [.post "http://a.test" (.challenge "c") [], .wait 500] } := by
  decide

/-- C13, as amended: for every `maxAttempts` and every sequence of endpoint
outcomes, `postWithRetry` waits after every failed attempt, whether attempts
remain or not. If the first `k ≤ maxAttempts` attempts fail and, when
`k < maxAttempts`, attempt `k + 1` is answered, the effects are, for each
failed attempt number `j = 1, ..., k` in turn, the POST followed by a wait of
exactly `j * 500` ms, and then, when `k < maxAttempts`, the POST that is
answered. So the waits are 500, 1000, ..., `k * 500` ms; after the failed
attempt that exhausts the budget (`k = maxAttempts`) the code waits
`maxAttempts * 500` ms and then returns `{success: false, error}` without
another POST. -/
theorem postWithRetry_backoff (answers : Nat → Outcome) (url : String) (payload : RequestBody)
    (headers : Headers) (maxAttempts k : Nat) (hk : k ≤ maxAttempts)
    (hfail : ∀ i, i < k → ∃ e, axiosPost (answers i) = .error e)
    (hnext : k < maxAttempts → ∃ res, axiosPost (answers k) = .ok res) :
    (postWithRetry answers url payload headers maxAttempts).effects
        = failedAttempts url payload headers 0 k ++
          (if k < maxAttempts then [.post url payload headers] else []) ∧
      waits (postWithRetry answers url payload headers maxAttempts).effects
        = (List.range k).map (fun i => 500 * (i + 1)) ∧
      ((postWithRetry answers url payload headers maxAttempts).result.isSuccess
        = decide (k < maxAttempts)) := by
  obtain ⟨lastErr', hloop, _⟩ := postWithRetryLoop_failed answers url payload headers
    maxAttempts k (maxAttempts - k) 0 none [] (by omega)
    (fun i hi => by simpa using hfail i hi)
  rw [show maxAttempts - k + k = maxAttempts by omega] at hloop
  have hw := waits_failedAttempts url payload headers k 0
  simp only [Nat.zero_add] at hw hloop
  by_cases hlt : k < maxAttempts
  · obtain ⟨res, hres⟩ := hnext hlt
    obtain ⟨f, hf⟩ : ∃ f, maxAttempts - k = f + 1 := ⟨maxAttempts - k - 1, by omega⟩
    have hpost : postWithRetry answers url payload headers maxAttempts
        = { result := .success res.status res.data,
            effects := failedAttempts url payload headers 0 k ++
              [.post url payload headers] } := by
      rw [postWithRetry, hloop, hf, postWithRetryLoop]
      simp [hlt, hres]
    rw [hpost]
    refine ⟨by simp [hlt], ?_, by simp [Result.isSuccess, hlt]⟩
    have : waits (failedAttempts url payload headers 0 k ++ [Effect.post url payload headers])
        = waits (failedAttempts url payload headers 0 k) := by
      simp [waits, List.filterMap_append]
    rw [this, hw]
  · have hpost : postWithRetry answers url payload headers maxAttempts
        = { result := .failure (errorMessage lastErr'),
            effects := failedAttempts url payload headers 0 k } := by
      rw [postWithRetry, hloop]
      cases hm : maxAttempts - k <;> simp [postWithRetryLoop, hlt]
    rw [hpost]
    exact ⟨by simp [hlt], hw, by simp [Result.isSuccess, hlt]⟩

/-- C13, witness: with five attempts allowed and an endpoint that answers the
third, the waits are 500 ms and 1000 ms. -/
theorem postWithRetry_backoff_witness :
    waits (postWithRetry
        (fun i => if i < 2 then Outcome.transportError "socket hang up"
          else Outcome.response 200 [])
        "http://b.test" (.challenge "c") [] 5).effects = [500, 1000] :=
  (postWithRetry_backoff
    (fun i => if i < 2 then Outcome.transportError "socket hang up"
      else Outcome.response 200 [])
    "http://b.test" (.challenge "c") [] 5 2 (by decide)
    (fun i hi => ⟨⟨"socket hang up"⟩, by simp [hi, axiosPost]⟩)
    (fun _ => ⟨⟨200, []⟩, rfl⟩)).2.1

end ProjetoMeta

namespace ProjetoMeta

/-! ### The live channel -/

/-- C11, counterexample: the handshake gives an auth token, the empty string,
and the query token `socksecret`, which is the configured secret. The auth
token is given and differs from the secret, so the claim rejects the
connection; `||` skips the empty string, the query token is compared, and the
connection is accepted and receives the snapshot. -/
theorem connect_accepts_query_token_after_empty_auth :
    (some "" : Option String) ≠ some "socksecret" ∧
      connect ⟨"supersecret", "socksecret", fun _ _ => "sig"⟩ ⟨⟨[], []⟩, ⟨[], []⟩⟩
          ⟨some "", some "socksecret"⟩
        = .connected { response := .logs [], db := ⟨⟨[], []⟩, ⟨[], []⟩⟩, effects := [] } ∧
      snapshots (connect ⟨"supersecret", "socksecret", fun _ _ => "sig"⟩ ⟨⟨[], []⟩, ⟨[], []⟩⟩
          ⟨some "", some "socksecret"⟩) = [[]] := by
  decide

/-- C11, as amended: for every live-channel handshake, the connection is
accepted if and only if the presented token (the auth token when one is given
and is not the empty string, the query token otherwise) equals the configured
shared secret. An accepted connection runs the `connection` handler and
receives exactly one `logs` snapshot, the one of that handler; a handshake
with no token, or with a presented token different from the secret, is
rejected with the error `unauthorized`, receives no `logs` snapshot, and
nothing is read or written. -/
theorem connect_accepted_iff_token (cfg : Config) (db : Db) (hs : Handshake) :
    ((∃ handled, connect cfg db hs = .connected handled) ↔
        ((∃ a, hs.authToken = some a ∧ a ≠ "" ∧ a = cfg.SOCKET_SECRET) ∨
          ((hs.authToken = none ∨ hs.authToken = some "") ∧
            hs.queryToken = some cfg.SOCKET_SECRET))) ∧
      ((∃ handled, connect cfg db hs = .connected handled) →
        connect cfg db hs = .connected (connection db) ∧
        snapshots (connect cfg db hs) = [db.file.logs.reverse.take 50]) ∧
      ((¬ ∃ handled, connect cfg db hs = .connected handled) →
        connect cfg db hs = .rejected "unauthorized" ∧ snapshots (connect cfg db hs) = []) ∧
      (hs.authToken = none → hs.queryToken = none →
        connect cfg db hs = .rejected "unauthorized") := by
  obtain ⟨auth, query⟩ := hs
  by_cases hacc : orElse auth query = some cfg.SOCKET_SECRET
  · have hc : connect cfg db ⟨auth, query⟩ = .connected (connection db) := by
      simp [connect, authorize, hacc]
    rw [hc]
    refine ⟨⟨fun _ => ?_, fun _ => ⟨_, rfl⟩⟩, fun _ => ⟨rfl, rfl⟩,
      fun h => absurd ⟨_, rfl⟩ h, ?_⟩
    · cases auth with
      | none => exact Or.inr ⟨Or.inl rfl, by simpa [orElse] using hacc⟩
      | some a =>
        by_cases ha : a = ""
        · subst ha
          exact Or.inr ⟨Or.inr rfl, by simpa [orElse] using hacc⟩
        · refine Or.inl ⟨a, rfl, ha, ?_⟩
          simpa [orElse, ha] using hacc
    · intro h1 h2
      simp only at h1 h2
      subst h1 h2
      simp [orElse] at hacc
  · have hc : connect cfg db ⟨auth, query⟩ = .rejected "unauthorized" := by
      simp [connect, authorize, hacc]
    rw [hc]
    refine ⟨⟨fun h => ?_, fun h => ?_⟩, fun h => ?_, fun _ => ⟨rfl, rfl⟩, fun _ _ => rfl⟩
    · obtain ⟨_, h⟩ := h
      cases h
    · exfalso
      apply hacc
      rcases h with ⟨a, h1, h2, h3⟩ | ⟨h1 | h1, h2⟩
      · simp only at h1
        subst h1
        have hor : orElse (some a) query = some a := by simp [orElse, h2]
        rw [hor, h3]
      · simp only at h1 h2
        subst h1 h2
        simp [orElse]
      · simp only at h1 h2
        subst h1 h2
        simp [orElse]
    · obtain ⟨_, h⟩ := h
      cases h

end ProjetoMeta

namespace ProjetoMeta

/-! ### The signer -/

/-- Two hexadecimal digits written by `escapeChar` read back as the number. -/
theorem hexValue_digitChar :
    ∀ n, n < 32 → 16 * hexValue (Nat.digitChar (n / 16)) + hexValue (Nat.digitChar (n % 16)) = n := by
  decide

/-- `unescapeHead` undoes `escapeChar`. -/
theorem unescapeHead_escapeChar (c : Char) (rest : List Char) :
    unescapeHead (escapeChar c ++ rest) = some (c, rest) := by
  by_cases h1 : c = '"'
  · subst h1; rfl
  by_cases h2 : c = '\\'
  · subst h2; rfl
  by_cases h3 : c = '\n'
  · subst h3; rfl
  by_cases h4 : c = '\r'
  · subst h4; rfl
  by_cases h5 : c = '\t'
  · subst h5; rfl
  by_cases h6 : c.toNat = 8
  · have hc : c = Char.ofNat 8 := by rw [← h6, Char.ofNat_toNat]
    subst hc; rfl
  by_cases h7 : c.toNat = 12
  · have hc : c = Char.ofNat 12 := by rw [← h7, Char.ofNat_toNat]
    subst hc; rfl
  by_cases h8 : c.toNat < 32
  · have hesc : escapeChar c
        = ['\\', 'u', '0', '0', Nat.digitChar (c.toNat / 16), Nat.digitChar (c.toNat % 16)] := by
      simp [escapeChar, h1, h2, h3, h4, h5, h6, h7, h8]
    rw [hesc]
    have hv := hexValue_digitChar c.toNat h8
    simp only [List.cons_append, List.nil_append, unescapeHead]
    simp only [show ('u' : Char) ≠ '"' by decide, show ('u' : Char) ≠ '\\' by decide,
      show ('u' : Char) ≠ 'n' by decide, show ('u' : Char) ≠ 'r' by decide,
      show ('u' : Char) ≠ 't' by decide, show ('u' : Char) ≠ 'b' by decide,
      show ('u' : Char) ≠ 'f' by decide, if_true, if_false, hv, Char.ofNat_toNat]
  · have hesc : escapeChar c = [c] := by
      simp [escapeChar, h1, h2, h3, h4, h5, h6, h7, h8]
    rw [hesc]
    simp [unescapeHead, h2]

end ProjetoMeta

namespace ProjetoMeta

/-- No escape starts with a double quote. -/
theorem escapeChar_head_ne_quote (c : Char) (rest rest' : List Char) :
    escapeChar c ++ rest ≠ '"' :: rest' := by
  intro h
  have hd := unescapeHead_escapeChar c rest
  rw [h] at hd
  have hq : unescapeHead ('"' :: rest') = some ('"', rest') := by
    simp [unescapeHead, show ('"' : Char) ≠ '\\' by decide]
  rw [hq] at hd
  have hc : c = '"' := by
    injection hd with hd
    exact (congrArg Prod.fst hd).symm
  subst hc
  have hhead := congrArg List.head? h
  simp [escapeChar] at hhead

/-- The escaped characters of a string, followed by the closing quote,
determine the string and what follows the quote. -/
theorem escaped_inj :
    ∀ (m m' rest rest' : List Char),
      m.flatMap escapeChar ++ '"' :: rest = m'.flatMap escapeChar ++ '"' :: rest' →
      m = m' ∧ rest = rest' := by
  intro m
  induction m with
  | nil =>
    intro m' rest rest' h
    cases m' with
    | nil =>
      simp only [List.flatMap_nil, List.nil_append, List.cons.injEq, true_and] at h
      exact ⟨rfl, h⟩
    | cons c' cs' =>
      simp only [List.flatMap_nil, List.nil_append, List.flatMap_cons, List.append_assoc] at h
      exact absurd h.symm (escapeChar_head_ne_quote _ _ _)
  | cons c cs ih =>
    intro m' rest rest' h
    cases m' with
    | nil =>
      simp only [List.flatMap_nil, List.nil_append, List.flatMap_cons, List.append_assoc] at h
      exact absurd h (escapeChar_head_ne_quote _ _ _)
    | cons c' cs' =>
      simp only [List.flatMap_cons, List.append_assoc] at h
      have hd := congrArg unescapeHead h
      rw [unescapeHead_escapeChar, unescapeHead_escapeChar] at hd
      injection hd with hd
      injection hd with hc hrest
      obtain ⟨hm, hr⟩ := ih cs' rest rest' hrest
      exact ⟨by rw [hc, hm], hr⟩

/-- The characters of a quoted string. -/
theorem quoteString_data (s : String) :
    (quoteString s).data = '"' :: (s.data.flatMap escapeChar ++ ['"']) := rfl

/-- The serialization determines the payload: two payloads that differ in a
field are serialized differently. -/
theorem jsonStringify_injective (p q : Payload) (h : jsonStringify p = jsonStringify q) :
    p = q := by
  have hd := congrArg String.data h
  simp only [jsonStringify, String.data_append, quoteString_data, List.append_assoc,
    List.cons_append, List.nil_append] at hd
  simp only [List.cons.injEq, true_and] at hd
  obtain ⟨hm, hrest⟩ := escaped_inj _ _ _ _ hd
  simp only [List.cons.injEq, true_and] at hrest
  obtain ⟨ht, _⟩ := escaped_inj _ _ _ _ hrest
  cases p
  cases q
  simp only [Payload.mk.injEq]
  exact ⟨String.ext hm, String.ext ht⟩

end ProjetoMeta

namespace ProjetoMeta

/-- There are finitely many characters. -/
theorem char_finite : Finite Char := by
  apply Finite.of_injective
    (fun c : Char => (⟨c.val.toNat, c.val.toNat_lt_size⟩ : Fin UInt32.size))
  intro a b h
  have h1 : a.val.toNat = b.val.toNat := by simpa using congrArg Fin.val h
  exact Char.ext (UInt32.toNat.inj h1)

/-- There are finitely many strings of 64 characters. -/
theorem strings_of_length_64_finite : {s : String | s.length = 64}.Finite := by
  haveI := char_finite
  have h := List.finite_length_eq Char 64
  have himage : {s : String | s.length = 64} = String.mk '' {l : List Char | l.length = 64} := by
    ext s
    constructor
    · intro hs
      exact ⟨s.data, hs, rfl⟩
    · rintro ⟨l, hl, rfl⟩
      exact hl
  rw [himage]
  exact h.image _

/-- Why no theorem says that different payloads get different signatures: a
digest primitive whose output is 64 characters long, as the hex digest of
SHA-256 is, cannot give different signatures to any two payloads that differ
in the message alone. The payloads with the messages `a`, `aa`, `aaa`, ... are
infinitely many, the signatures finitely many. No pair of payloads with the
same signature is exhibited. -/
theorem signPayload_not_collision_free :
    ¬ ∃ cfg : Config, (∀ key msg, (cfg.hmacSha256Hex key msg).length = 64) ∧
      ∀ p q : Payload, p.timestamp = q.timestamp → p.message ≠ q.message →
        signPayload cfg p ≠ signPayload cfg q := by
  rintro ⟨cfg, hlen, hdiff⟩
  obtain ⟨x, _, y, _, hxy, hsame⟩ :=
    Set.Infinite.exists_ne_map_eq_of_mapsTo
      (f := fun n : Nat => signPayload cfg
        { message := String.mk (List.replicate n 'a'), timestamp := "" })
      Set.infinite_univ (fun n _ => hlen _ _) strings_of_length_64_finite
  have hmsg : (String.mk (List.replicate x 'a')) ≠ String.mk (List.replicate y 'a') := by
    intro hmsg
    apply hxy
    have hl := congrArg String.length hmsg
    simpa [String.length] using hl
  exact hdiff { message := String.mk (List.replicate x 'a'), timestamp := "" }
    { message := String.mk (List.replicate y 'a'), timestamp := "" } rfl hmsg hsame

/-- Within one event trigger every POST carries the payload of the trigger and
the headers of `index.js:115`, the signature being that of this payload: every
subscriber receives the same `x-webhook-signature` value. -/
theorem event_posts_carry_signature (cfg : Config) (db : Db) (message : Option String)
    (env : EventEnv) :
    ∀ url body headers, Effect.post url body headers ∈ (event cfg db message env).effects →
      body = .event { message := messageOrDefault message, timestamp := env.now } ∧
      headers = [("Content-Type", "application/json"),
        ("x-webhook-signature",
          signPayload cfg { message := messageOrDefault message, timestamp := env.now })] := by
  intro url body headers hmem
  rcases eventLoop_effects cfg env _ _ _ _ _ hmem with h | ⟨s, _, h⟩ | ⟨_, h⟩ |
    ⟨_, h, _⟩ | ⟨_, h⟩
  · simp at h
  · injection h with _ h2 h3
    exact ⟨h2, h3⟩
  · cases h
  · cases h
  · cases h

end ProjetoMeta
